import Mathlib

set_option maxHeartbeats 1000000
set_option maxRecDepth 100000

/-! Verification development for the meeting-scheduler pipeline: a shallow
embedding of the sanitizer (validators.py), the TTL extraction cache
(cache.py), the retry wrapper (google_api.py) and the four-stage agent
pipeline (agent.py, models.py), followed by theorems about the embedded
definitions. Strings are modelled as Lean strings over their character
lists; Python whitespace handling and lower-casing are modelled for the
ASCII range. -/

/-- Decidable equality on Except, for concrete evaluation of the fallible
operations in this development. -/
instance {ε α : Type} [DecidableEq ε] [DecidableEq α] : DecidableEq (Except ε α) := fun x y =>
  match x, y with
  | .ok a, .ok b =>
    if h : a = b then isTrue (by rw [h]) else isFalse (fun hc => h (Except.ok.inj hc))
  | .error a, .error b =>
    if h : a = b then isTrue (by rw [h]) else isFalse (fun hc => h (Except.error.inj hc))
  | .ok _, .error _ => isFalse (fun hc => Except.noConfusion hc)
  | .error _, .ok _ => isFalse (fun hc => Except.noConfusion hc)

/-- Whitespace predicate covering the six ASCII whitespace characters
recognised by Python str.strip, str.split and the regex class backslash-s. -/
def isPyWs (c : Char) : Bool :=
  c = ' ' || c = '\t' || c = '\n' || c = '\r' || c = '\x0b' || c = '\x0c'

/-- ASCII lower-casing of one character, mirroring Python str.lower on ASCII
input. -/
def lowChar (c : Char) : Char :=
  if 65 ≤ c.toNat ∧ c.toNat ≤ 90 then Char.ofNat (c.toNat + 32) else c

/-- Python str.lower (ASCII model). -/
def lowStr (s : String) : String := String.mk (s.data.map lowChar)

/-- Python str.strip on a character list: drop whitespace from both ends. -/
def stripList (l : List Char) : List Char :=
  ((l.dropWhile isPyWs).reverse.dropWhile isPyWs).reverse

/-- Python str.strip. -/
def pyStrip (s : String) : String := String.mk (stripList s.data)

/-- Fuelled worker for stripTags. The fuel dominates the list length at
every call, so the zero-fuel branch is never reached from the wrapper. -/
def stripTagsF : Nat → List Char → List Char
  | 0, _ => []
  | _ + 1, [] => []
  | f + 1, c :: rest =>
    if c = '<' && rest.contains '>' then
      stripTagsF f ((rest.dropWhile (fun x => x ≠ '>')).drop 1)
    else c :: stripTagsF f rest

/-- Removal of HTML-like tags, mirroring re.sub applied with the tag pattern
(a less-than sign, any run of characters other than greater-than, then a
greater-than sign) and the empty replacement in sanitize_user_input: each
less-than sign that is followed by a greater-than sign is removed together
with everything up to and including the first such greater-than sign. -/
def stripTags (l : List Char) : List Char := stripTagsF l.length l

/-- Fuelled worker for splitWs; the fuel dominates the list length. -/
def splitWsF : Nat → List Char → List (List Char)
  | 0, _ => []
  | _ + 1, [] => []
  | f + 1, c :: rest =>
    if isPyWs c then splitWsF f rest
    else (c :: rest.takeWhile (fun x => !isPyWs x)) ::
      splitWsF f (rest.dropWhile (fun x => !isPyWs x))

/-- Splitting into maximal whitespace-free words, mirroring Python
str.split with no arguments. -/
def splitWs (l : List Char) : List (List Char) := splitWsF l.length l

/-- Joining words with single spaces, mirroring the join of a list of
words on a one-space separator. -/
def joinSp : List (List Char) → List Char
  | [] => []
  | [w] => w
  | w :: ws => w ++ ' ' :: joinSp ws

/-- Whitespace collapsing: split into words, rejoin with single spaces. -/
def collapseList (l : List Char) : List Char := joinSp (splitWs l)

/-- The full text transformation of sanitize_user_input: strip tags, then
collapse whitespace runs. -/
def sanitizeText (s : String) : String := String.mk (collapseList (stripTags s.data))

/-- Tokens of the small pattern language needed for the eight injection
patterns of InputValidator: literal text, mandatory whitespace run,
optional whitespace run, and alternation of literals. -/
inductive RTok where
  | lit (w : List Char)
  | ws1
  | ws0
  | alts (ws : List (List Char))

/-- Matching a token sequence at the start of a character list. Whitespace
runs are consumed greedily; this agrees with regex backtracking because in
every pattern a whitespace token is followed by a literal starting with a
non-whitespace character. -/
def matchToks : List RTok → List Char → Bool
  | [], _ => true
  | RTok.lit w :: ps, l => w.isPrefixOf l && matchToks ps (l.drop w.length)
  | RTok.ws1 :: ps, l =>
    (match l with | c :: _ => isPyWs c | [] => false) &&
      matchToks ps (l.dropWhile isPyWs)
  | RTok.ws0 :: ps, l => matchToks ps (l.dropWhile isPyWs)
  | RTok.alts ws :: ps, l => ws.any (fun w => w.isPrefixOf l && matchToks ps (l.drop w.length))

/-- re.search of a token sequence: a match at any start position. -/
def searchToks (ps : List RTok) (l : List Char) : Bool := l.tails.any (matchToks ps)

/-- The eight prompt-injection patterns of InputValidator, in source order. -/
def injectionPatterns : List (List RTok) :=
  [ [RTok.lit "ignore".data, RTok.ws1,
      RTok.alts ["previous".data, "all".data, "above".data]],
    [RTok.lit "system".data, RTok.ws0, RTok.lit ":".data],
    [RTok.lit "<".data, RTok.ws0, RTok.lit "script".data],
    [RTok.lit "javascript".data, RTok.ws0, RTok.lit ":".data],
    [RTok.lit "disregard".data],
    [RTok.lit "forget".data, RTok.ws1,
      RTok.alts ["everything".data, "instructions".data]],
    [RTok.lit "new".data, RTok.ws1, RTok.lit "instructions".data],
    [RTok.lit "admin".data, RTok.ws1, RTok.lit "mode".data] ]

/-- The injection check of sanitize_user_input: each pattern is searched in
the lower-cased raw input, before any markup stripping. -/
def hasInjection (s : String) : Bool :=
  injectionPatterns.any (fun p => searchToks p (lowStr s).data)

/-- The structured content of a ValidationError from exceptions.py. -/
structure ValidationErr where
  field : String
  value : String
  reason : String
deriving DecidableEq

/-- The message produced by ValidationError: the field, the value in single
quotes, and the reason. -/
def ValidationErr.msg (v : ValidationErr) : String :=
  "Validation failed for " ++ v.field ++ "=\x27" ++ v.value ++ "\x27: " ++ v.reason

/-- Python slicing of the first 50 characters, used in error excerpts. -/
def take50 (s : String) : String := String.mk (s.data.take 50)

/-- InputValidator.sanitize_user_input: length check, emptiness check on the
stripped text, injection check on the lower-cased raw text, then tag
stripping and whitespace collapsing of the raw text. -/
def sanitize_user_input (t : String) : Except ValidationErr String :=
  if t.length > 500 then
    .error ⟨"user_input", take50 t, "Input too long (max 500 characters)"⟩
  else if (pyStrip t).length = 0 then
    .error ⟨"user_input", "", "Input cannot be empty"⟩
  else if hasInjection t then
    .error ⟨"user_input", take50 t, "Input contains potentially malicious content"⟩
  else .ok (sanitizeText t)

/-- Email normalisation of validate_email: strip whitespace, then lower. -/
def normEmail (e : String) : String := lowStr (pyStrip e)

/-- Characters allowed in the local part of the email pattern. -/
def isLocalChar (c : Char) : Bool :=
  c.isAlpha || c.isDigit || c = '.' || c = '_' || c = '%' || c = '+' || c = '-'

/-- Characters allowed in the domain part of the email pattern. -/
def isDomainChar (c : Char) : Bool :=
  c.isAlpha || c.isDigit || c = '.' || c = '-'

/-- Domain acceptance of the email pattern: all characters legal, and the
text after the last dot is a purely alphabetic label of length at least two
with a non-empty prefix before that dot. This is equivalent to the regex
fragment for the domain, since the final label admits no dot. -/
def domainOk (d : List Char) : Bool :=
  d.all isDomainChar && d.contains '.' &&
  (let tld := d.reverse.takeWhile (fun c => c ≠ '.')
   2 ≤ tld.length && tld.all Char.isAlpha && tld.length + 1 < d.length)

/-- Splitting a character list on a separator character, keeping empty
pieces, as Python str.split with an explicit separator does. -/
def splitOnCharAux (sep : Char) : List Char → List Char → List (List Char)
  | [], acc => [acc.reverse]
  | c :: rest, acc =>
    if c = sep then acc.reverse :: splitOnCharAux sep rest []
    else splitOnCharAux sep rest (c :: acc)

/-- Split on a separator character. -/
def splitOnChar (sep : Char) (l : List Char) : List (List Char) :=
  splitOnCharAux sep l []

/-- The full-match test of EMAIL_PATTERN: exactly one at-sign separating a
non-empty local part over its character class from an accepted domain. -/
def isEmailFormat (s : String) : Bool :=
  match splitOnChar '@' s.data with
  | [loc, dom] => loc.length ≥ 1 && loc.all isLocalChar && domainOk dom
  | _ => false

/-- InputValidator.validate_email: normalise, check the pattern, then the
254-character bound. -/
def validate_email (e : String) : Except ValidationErr String :=
  let em := normEmail e
  if !(isEmailFormat em) then .error ⟨"email", em, "Invalid email format"⟩
  else if em.length > 254 then .error ⟨"email", take50 em, "Email too long"⟩
  else .ok em

/-- InputValidator.validate_and_sanitize: text first, then email. -/
def validate_and_sanitize (t e : String) : Except ValidationErr (String × String) :=
  match sanitize_user_input t with
  | .error v => .error v
  | .ok s =>
    match validate_email e with
    | .error v => .error v
    | .ok em => .ok (s, em)

/-! ## Extraction cache (cache.py, over cachetools TTLCache)

Entries are kept in insertion order, oldest first; each entry carries an
absolute expiry instant.  The md5 key of AgentCache is modelled as the
normalised text itself: a stable key under which two texts collide exactly
when their normalisations agree. -/

/-- One cache entry: key, stored value, absolute expiry instant. -/
structure CEntry (V : Type) where
  key : String
  val : V
  expires : Nat
deriving DecidableEq

/-- The TTLCache state: capacity, time to live, entries oldest first. -/
structure TTLStore (V : Type) where
  maxsize : Nat
  ttl : Nat
  entries : List (CEntry V)
deriving DecidableEq

/-- Removal of expired entries (expiry not in the future), run by TTLCache
at the start of every write. -/
def expirePurge {V : Type} (now : Nat) (l : List (CEntry V)) : List (CEntry V) :=
  l.filter (fun en => now < en.expires)

/-- TTLCache read: the stored value only if present and not expired. -/
def storeGet {V : Type} (s : TTLStore V) (now : Nat) (k : String) : Option V :=
  match s.entries.find? (fun en => en.key = k) with
  | some en => if now < en.expires then some en.val else none
  | none => none

/-- TTLCache write: purge expired entries, remove any entry under the same
key, evict oldest-inserted entries while the store would exceed capacity,
then append the new entry at the young end with a fresh expiry. -/
def storeSet {V : Type} (s : TTLStore V) (now : Nat) (k : String) (v : V) : TTLStore V :=
  let l0 := expirePurge now s.entries
  let l1 := l0.filter (fun en => en.key ≠ k)
  let l2 := l1.drop (l1.length + 1 - s.maxsize)
  { s with entries := l2 ++ [⟨k, v, now + s.ttl⟩] }

/-- AgentCache.clear. -/
def storeClear {V : Type} (s : TTLStore V) : TTLStore V := { s with entries := [] }

/-- AgentCache key normalisation: lower-case, then strip whitespace (the md5
digest of the source is modelled as the normalised text itself). -/
def agentKey (t : String) : String := pyStrip (lowStr t)

/-- AgentCache.get. -/
def agentGet {V : Type} (s : TTLStore V) (now : Nat) (t : String) : Option V :=
  storeGet s now (agentKey t)

/-- AgentCache.set. -/
def agentSet {V : Type} (s : TTLStore V) (now : Nat) (t : String) (v : V) : TTLStore V :=
  storeSet s now (agentKey t) v

/-! ## Resilient call wrapper (the tenacity retry decorator in google_api.py)

stop_after_attempt 3, wait_exponential with multiplier 1, minimum 2 and
maximum 10, retry on any raised failure, reraise.  An operation is a
function from the attempt number (starting at 1) to a result. -/

/-- The wait produced by wait_exponential after the n-th failed attempt:
2 to the n, clamped between 2 and 10 seconds. -/
def waitExp (n : Nat) : Nat := max 2 (min (2 ^ n) 10)

/-- The retry loop: up to three attempts, a backoff wait between attempts,
the last failure reraised.  Returns the result, the number of attempts
actually made, and the list of waits performed. -/
def retryCall {E A : Type} (op : Nat → Except E A) : Except E A × Nat × List Nat :=
  match op 1 with
  | .ok a => (.ok a, 1, [])
  | .error _ =>
    match op 2 with
    | .ok a => (.ok a, 2, [waitExp 1])
    | .error _ =>
      match op 3 with
      | .ok a => (.ok a, 3, [waitExp 1, waitExp 2])
      | .error e => (.error e, 3, [waitExp 1, waitExp 2])

/-- The create-event provider operation as wrapped by the retry decorator. -/
def createEventResilient {A : Type} (op : Nat → Except String A) : Except String A × Nat × List Nat :=
  retryCall op

/-- The send-email provider operation as wrapped by the retry decorator. -/
def sendEmailResilient {A : Type} (op : Nat → Except String A) : Except String A × Nat × List Nat :=
  retryCall op

/-! ## Data model (models.py) and the pipeline stages (agent.py) -/

/-- The meeting-details dictionary as produced by the extraction step:
each expected key either absent or bound to a string. -/
structure RawDetails where
  title : Option String
  date : Option String
  start_time : Option String
  end_time : Option String
  attendee_email : Option String
  description : Option String
deriving DecidableEq

/-- The empty details dictionary. -/
def emptyRaw : RawDetails := ⟨none, none, none, none, none, none⟩

/-- The validated MeetingDetails record of models.py. -/
structure MeetingDetails where
  title : String
  date : String
  start_time : String
  end_time : String
  attendee_email : Option String
  description : Option String
deriving DecidableEq

/-- A calendar date as year, month, day. -/
abbrev CalDate := Nat × Nat × Nat

/-- Strict lexicographic order on calendar dates. -/
def dateLt (a b : CalDate) : Bool :=
  a.1 < b.1 || (a.1 = b.1 && (a.2.1 < b.2.1 || (a.2.1 = b.2.1 && a.2.2 < b.2.2)))

/-- Days in a month, with the Gregorian leap rule, as the datetime library
enforces when parsing a date. -/
def daysInMonth (y m : Nat) : Nat :=
  if m = 2 then (if y % 4 = 0 && (y % 100 ≠ 0 || y % 400 = 0) then 29 else 28)
  else if m = 4 || m = 6 || m = 9 || m = 11 then 30
  else 31

/-- A run of decimal digits as a number, or none. -/
def digitsToNat : List Char → Option Nat
  | [] => none
  | l => if l.all Char.isDigit then some (l.foldl (fun n c => n * 10 + (c.toNat - 48)) 0) else none

/-- Single quotes around a string, as Python repr of a string produces. -/
def pyQuote (s : String) : String := "\x27" ++ s ++ "\x27"

/-- The message of a strptime failure that matched no prefix of the
input. -/
def strptimeErr (v fmt : String) : String :=
  "time data " ++ pyQuote v ++ " does not match format " ++ pyQuote fmt

/-- The month group of the strptime year-month-day pattern together with
the dash that follows it: one or two digits, two preferred, the engine
backtracking to one digit when no dash follows the second.  Returns the
month value and the unconsumed remainder. -/
def matchMonthDash (l : List Char) : Option (Nat × List Char) :=
  match l with
  | a :: '-' :: r => if a.isDigit then some (a.toNat - 48, r) else none
  | a :: b :: '-' :: r =>
    if a.isDigit && b.isDigit then some ((a.toNat - 48) * 10 + (b.toNat - 48), r)
    else none
  | _ => none

/-- The day group of the strptime year-month-day pattern, whose
alternatives are tried in order: 30 or 31, a two-digit value 10 through 29,
a zero-padded 01 through 09, a single nonzero digit, and a space-padded
nonzero digit.  Returns the day value and the unconsumed remainder. -/
def matchDay (l : List Char) : Option (Nat × List Char) :=
  match l with
  | '3' :: '0' :: r => some (30, r)
  | '3' :: '1' :: r => some (31, r)
  | a :: rest =>
    if a = '1' || a = '2' then
      match rest with
      | b :: r2 =>
        if b.isDigit then some ((a.toNat - 48) * 10 + (b.toNat - 48), r2)
        else some (a.toNat - 48, rest)
      | [] => some (a.toNat - 48, [])
    else if a = '0' then
      match rest with
      | b :: r2 => if '1' ≤ b && b ≤ '9' then some (b.toNat - 48, r2) else none
      | [] => none
    else if '1' ≤ a && a ≤ '9' then some (a.toNat - 48, rest)
    else if a = ' ' then
      match rest with
      | b :: r2 => if '1' ≤ b && b ≤ '9' then some (b.toNat - 48, r2) else none
      | [] => none
    else none
  | [] => none

/-- Greedy prefix match of the compiled year-month-day pattern: exactly
four year digits, a dash, the month group with its dash, then the day
group.  Returns the three values and the unconsumed tail of the input. -/
def matchYMD (l : List Char) : Option (Nat × Nat × Nat × List Char) :=
  match l with
  | y1 :: y2 :: y3 :: y4 :: '-' :: rest =>
    if y1.isDigit && y2.isDigit && y3.isDigit && y4.isDigit then
      match matchMonthDash rest with
      | some (m, rest2) =>
        match matchDay rest2 with
        | some (d, rest3) =>
          some ((((y1.toNat - 48) * 10 + (y2.toNat - 48)) * 10 + (y3.toNat - 48)) * 10 +
              (y4.toNat - 48), m, d, rest3)
        | none => none
      | none => none
    else none
  | _ => none

/-- strptime of a date string with the year-month-day format, as the date
validator calls it: the parsed date, or the exact ValueError message — the
no-match message, the unconverted-trailing-data message, or a constructor
range failure (the year, read from exactly four digits, can only fall
below range; the day group alone never produces zero, and the day bound
against the month length is checked last). -/
def strptimeYMD (s : String) : Except String CalDate :=
  match matchYMD s.data with
  | none => .error (strptimeErr s "%Y-%m-%d")
  | some (y, m, d, rest) =>
    match rest with
    | _ :: _ => .error ("unconverted data remains: " ++ String.mk rest)
    | [] =>
      if y = 0 then .error "year 0 is out of range"
      else if m = 0 || 12 < m then .error "month must be in 1..12"
      else if d = 0 || daysInMonth y m < d then .error "day is out of range for month"
      else .ok (y, m, d)

/-- Full strptime with the year-month-day format, keeping only success. -/
def parseDateYMD (s : String) : Option CalDate := (strptimeYMD s).toOption

/-- strptime with the hour-minute format: two colon-separated digit groups
(at most 2 digits each), hour below 24, minute below 60. -/
def parseTimeHM (s : String) : Option (Nat × Nat) :=
  match splitOnChar ':' s.data with
  | [hs, ms] =>
    match digitsToNat hs, digitsToNat ms with
    | some h, some m =>
      if hs.length ≤ 2 && ms.length ≤ 2 && h ≤ 23 && m ≤ 59 then some (h, m) else none
    | _, _ => none
  | _ => none

/-- Lexicographic comparison of clock times, as comparing the two parsed
datetime values does. -/
def timeLe (a b : Nat × Nat) : Bool := a.1 < b.1 || (a.1 = b.1 && a.2 ≤ b.2)

/-- Dictionary-style rendering of the details record (present keys only),
standing in for Python str of the dict. -/
def reprRaw (d : RawDetails) : String :=
  let fieldStr := fun (k : String) (v : Option String) =>
    match v with
    | some s => [pyQuote k ++ ": " ++ pyQuote s]
    | none => []
  "\x7b" ++ String.intercalate ", "
    (fieldStr "title" d.title ++ fieldStr "date" d.date ++
     fieldStr "start_time" d.start_time ++ fieldStr "end_time" d.end_time ++
     fieldStr "attendee_email" d.attendee_email ++ fieldStr "description" d.description)
  ++ "\x7d"

/-- One missing-field entry of the model error report: the field name, the
required-field message, and the bracketed context the library appends —
the error type, the whole input dictionary as the input value, and its
type. -/
def fieldRequiredEntry (f : String) (d : RawDetails) : String :=
  f ++ "\n  Field required [type=missing, input_value=" ++ reprRaw d ++
    ", input_type=dict]"

/-- One date value-error entry of the model error report: the message of
the ValueError the date validator raised, prefixed with the value-error
marker, with the bracketed context naming the offending string. -/
def dateValueEntry (inner ds : String) : String :=
  "date\n  Value error, Invalid date format. Use YYYY-MM-DD: " ++ inner ++
    " [type=value_error, input_value=" ++ pyQuote ds ++ ", input_type=str]"

/-- The error entries the date validator contributes for a present date
string: the re-wrapped strptime failure, or the re-wrapped past-date
rejection, or none. -/
def dateErrList (today : CalDate) (ds : String) : List String :=
  match strptimeYMD ds with
  | .error msg => [dateValueEntry msg ds]
  | .ok dt =>
    if dateLt dt today then [dateValueEntry "Meeting date cannot be in the past" ds]
    else []

/-- The entry list produced by the MeetingDetails model for one details
dictionary, in field-declaration order: a missing-field entry per absent
required field, and the date-validator entries for a present date. -/
def pydanticErrs (today : CalDate) (d : RawDetails) : List String :=
  (match d.title with
   | none => [fieldRequiredEntry "title" d]
   | some _ => []) ++
  (match d.date with
   | none => [fieldRequiredEntry "date" d]
   | some ds => dateErrList today ds) ++
  (match d.start_time with
   | none => [fieldRequiredEntry "start_time" d]
   | some _ => []) ++
  (match d.end_time with
   | none => [fieldRequiredEntry "end_time" d]
   | some _ => [])

/-- Newline-joined rendering of a message list, as the model error report
concatenates its per-field entries. -/
def joinNl : List String → String
  | [] => ""
  | [x] => x
  | x :: xs => x ++ "\n" ++ joinNl xs

/-- The text of the model ValidationError: the error count, the pluralised
header, and the newline-joined entries.  The documentation link line under
each entry is left out: its text names the installed library version,
which the sources do not pin, and contains neither of the lower-cased
substrings the validation stage tests for. -/
def pydanticReport (errs : List String) : String :=
  Nat.repr errs.length ++ " validation error" ++
    (if errs.length = 1 then "" else "s") ++ " for MeetingDetails\n" ++ joinNl errs

/-- Construction of the MeetingDetails model from a details dictionary:
the full error report, or the record when all fields pass. -/
def mkMeetingDetails (today : CalDate) (d : RawDetails) : Except String MeetingDetails :=
  match d.title, d.date, d.start_time, d.end_time with
  | some tt, some ds, some st2, some et2 =>
    if (pydanticErrs today d).isEmpty then
      .ok ⟨tt, ds, st2, et2, d.attendee_email, d.description⟩
    else .error (pydanticReport (pydanticErrs today d))
  | _, _, _, _ =>
    .error (pydanticReport (pydanticErrs today d))

/-- The calendar-creation result dictionary returned by the provider.  The
source failure dictionary carries only the success flag; it is modelled
with an absent link and empty message. -/
structure CalResult where
  success : Bool
  event_link : Option String
  message : String
deriving DecidableEq

/-- The email-send result dictionary returned by the provider. -/
structure EmailRes where
  message_id : String
  message : String
deriving DecidableEq

/-- The final-response dictionary assembled by the notify stage.  The
failure dictionaries of the source carry no link key, modelled as none. -/
structure FinalResponse where
  success : Bool
  message : String
  event_link : Option String
deriving DecidableEq

/-- The MeetingResponse record returned by run. -/
structure MeetingResponse where
  success : Bool
  message : String
  event_link : Option String
  error : Option String
deriving DecidableEq

/-- The AgentState dictionary flowing through the graph. -/
structure AgentState where
  user_input : String
  user_email : String
  meeting_details : RawDetails
  calendar_result : Option CalResult
  email_result : Option EmailRes
  final_response : Option FinalResponse
  error : String
deriving DecidableEq

/-- The external collaborators of one pipeline run: the cache lookup result
for the sanitized input, the extraction call (already wrapped, its failure
covering both unparseable output and a raised error), and the two provider
operations as they behave after their internal retry loop (an error is a
raised exception). -/
structure AgentEnv where
  cached : Option RawDetails
  llm : Except Unit RawDetails
  createEventApi : MeetingDetails → Except String CalResult
  sendEmailApi : String → String → String → Except String EmailRes

/-- Observable provider calls issued by the pipeline stages. -/
inductive ApiCall where
  | createEvent (m : MeetingDetails)
  | sendEmail (toAddr subject body : String)
deriving DecidableEq

/-- The ParseError message of exceptions.py. -/
def parseErrorMsg (i : String) : String :=
  "Failed to parse meeting details from: " ++ pyQuote (take50 i ++ "...")

/-- The GoogleAPIError message of exceptions.py. -/
def gerrMsg (api op e : String) : String := api ++ " " ++ op ++ " failed: " ++ e

/-- Stage 1, parse_meeting_details: on a cache hit take the cached record;
otherwise consult the extraction service, storing the record on success and
setting the ParseError message on any failure. -/
def parse_meeting_details (env : AgentEnv) (st : AgentState) : AgentState :=
  match env.cached with
  | some d => { st with meeting_details := d }
  | none =>
    match env.llm with
    | .ok d => { st with meeting_details := d }
    | .error _ => { st with error := parseErrorMsg st.user_input }

/-- The outcome of the try block of validate_details: a raised error with
its message, an explicit same-time rejection, or success. -/
inductive VOut where
  | exc (e : String)
  | setErr (msg : String)
  | pass
deriving DecidableEq

/-- The try block of validate_details: build the MeetingDetails model, parse
both clock times, reject when the end is not strictly after the start. -/
def validateCore (today : CalDate) (d : RawDetails) : VOut :=
  match mkMeetingDetails today d with
  | .error e => .exc e
  | .ok m =>
    match parseTimeHM m.start_time with
    | none => .exc (strptimeErr m.start_time "%H:%M")
    | some s =>
      match parseTimeHM m.end_time with
      | none => .exc (strptimeErr m.end_time "%H:%M")
      | some e2 =>
        if timeLe e2 s then
          .setErr (ValidationErr.msg ⟨"end_time", m.end_time, "End time must be after start time"⟩)
        else .pass

/-- Substring test, standing in for the Python in operator on strings. -/
def containsSub (s sub : String) : Bool := decide (sub.data <:+: s.data)

/-- Stage 2, validate_details: pass through on a pre-existing error;
otherwise run the try block, classify a raised error as the past-date
rejection when its lower-cased message mentions both date and past, and as
an unknown-field rejection otherwise. -/
def validate_details (today : CalDate) (st : AgentState) : AgentState :=
  if st.error ≠ "" then st
  else
    match validateCore today st.meeting_details with
    | .pass => st
    | .setErr msg => { st with error := msg }
    | .exc e =>
      if containsSub (lowStr e) "date" && containsSub (lowStr e) "past" then
        { st with error := (ValidationErr.msg
            ⟨"date", st.meeting_details.date.getD "", "Date cannot be in the past"⟩) }
      else
        { st with error := ValidationErr.msg ⟨"unknown", reprRaw st.meeting_details, e⟩ }

/-- Stage 3, create_calendar_event: pass through on a pre-existing error;
rebuild the MeetingDetails model (a failure is caught and wrapped as a
Calendar provider failure); invoke the wrapped provider call, recording the
result, and classify an explicit failure result or a raised error as a
Calendar provider failure. -/
def create_calendar_event (today : CalDate) (env : AgentEnv) (st : AgentState) :
    AgentState × List ApiCall :=
  if st.error ≠ "" then (st, [])
  else
    match mkMeetingDetails today st.meeting_details with
    | .error e =>
      ({ st with
          error := gerrMsg "Calendar" "create_event" e,
          calendar_result := some ⟨false, none, ""⟩ }, [])
    | .ok m =>
      match env.createEventApi m with
      | .ok r =>
        if r.success then ({ st with calendar_result := some r }, [ApiCall.createEvent m])
        else
          ({ st with
              calendar_result := some r,
              error := gerrMsg "Calendar" "create_event" r.message }, [ApiCall.createEvent m])
      | .error e =>
        ({ st with
            error := gerrMsg "Calendar" "create_event" e,
            calendar_result := some ⟨false, none, ""⟩ }, [ApiCall.createEvent m])

/-- Python str of an optional value inside the success body. -/
def optionStr : Option String → String
  | some s => s
  | none => "None"

/-- The attendee line of the success body: present only when the attendee
value is truthy. -/
def attLine : Option String → String
  | some a => if a = "" then "" else "Attendee: " ++ a
  | none => ""

/-- The failure-notification body, with the error text embedded. -/
def errorEmailBody (err : String) : String :=
  "\n            Failed to schedule your meeting.\n            \n            Error: " ++
  err ++ "\n            \n            Please try again or contact support.\n            "

/-- The fixed failure-notification subject marker. -/
def failSubject : String := "❌ Meeting Scheduling Failed"

/-- The success-notification body. -/
def successEmailBody (tt ds st2 et2 : String) (att : Option String)
    (link : Option String) : String :=
  "\n            ✅ Your meeting has been scheduled!\n            \n            Title: " ++
  tt ++ "\n            Date: " ++ ds ++ "\n            Time: " ++ st2 ++ " - " ++ et2 ++
  " (IST)\n            " ++ attLine att ++
  "\n            \n            View in calendar: " ++ optionStr link ++
  "\n            \n            Best regards,\n            AI Calendar Agent\n            "

/-- Building the success notification from the state: each required lookup
in the details dictionary or the calendar result can raise a key error,
modelled as the error case. -/
def successEmailContent (st : AgentState) : Except String (String × String) :=
  match st.meeting_details.title with
  | none => .error (pyQuote "title")
  | some tt =>
    match st.meeting_details.date with
    | none => .error (pyQuote "date")
    | some ds =>
      match st.meeting_details.start_time with
      | none => .error (pyQuote "start_time")
      | some st2 =>
        match st.meeting_details.end_time with
        | none => .error (pyQuote "end_time")
        | some et2 =>
          match st.calendar_result with
          | none => .error (pyQuote "calendar_result")
          | some r =>
            .ok ("✅ Meeting Scheduled: " ++ tt,
              successEmailBody tt ds st2 et2 st.meeting_details.attendee_email r.event_link)

/-- The state produced when the success-notification attempt raises: the
Gmail provider failure is recorded and the final outcome downgraded. -/
def emailFailState (st : AgentState) (e : String) : AgentState :=
  { st with
    error := gerrMsg "Gmail" "send_email" e,
    final_response := some
      ⟨false, "Event created but email failed: " ++ gerrMsg "Gmail" "send_email" e, none⟩ }

/-- The event link stored in the success final response. -/
def linkOf (st : AgentState) : Option String :=
  match st.calendar_result with
  | some r => r.event_link
  | none => none

/-- Stage 4, send_confirmation_email.  With a pre-existing error: send the
failure notification and record the failure outcome; this send is not
guarded, so a raised send failure escapes the stage (the error case of the
result).  Without one: build and send the success notification inside a
guard, recording the success outcome, and downgrading to the
created-but-not-notified failure outcome when anything in the guarded block
raises. -/
def send_confirmation_email (env : AgentEnv) (st : AgentState) :
    Except String (AgentState × List ApiCall) :=
  if st.error ≠ "" then
    match env.sendEmailApi st.user_email failSubject (errorEmailBody st.error) with
    | .ok r =>
      .ok ({ st with
              email_result := some r,
              final_response := some ⟨false, st.error, none⟩ },
        [ApiCall.sendEmail st.user_email failSubject (errorEmailBody st.error)])
    | .error e => .error e
  else
    match successEmailContent st with
    | .error ke => .ok (emailFailState st ke, [])
    | .ok (subj, body) =>
      match env.sendEmailApi st.user_email subj body with
      | .ok r =>
        .ok ({ st with
                email_result := some r,
                final_response := some ⟨true, "Meeting scheduled successfully!", linkOf st⟩ },
          [ApiCall.sendEmail st.user_email subj body])
      | .error e => .ok (emailFailState st e, [ApiCall.sendEmail st.user_email subj body])

/-- The initial state built by run after sanitization. -/
def mkInitialState (si se : String) : AgentState :=
  ⟨si, se, emptyRaw, none, none, none, ""⟩

/-- MeetingResponse built from the final-response dictionary: its error key
is never set there, so the error field defaults to none. -/
def mkResponse (fr : FinalResponse) : MeetingResponse :=
  ⟨fr.success, fr.message, fr.event_link, none⟩

/-- The run entry point: sanitize both inputs, surfacing a sanitization
failure directly as the final outcome; otherwise drive the four stages in
order.  A raised error escaping the notify stage, or a missing final
response, escapes run itself (the error case).  The provider calls issued
are returned alongside the response. -/
def run (today : CalDate) (env : AgentEnv) (user_input user_email : String) :
    Except String (MeetingResponse × List ApiCall) :=
  match validate_and_sanitize user_input user_email with
  | .error v => .ok (⟨false, v.msg, none, some v.msg⟩, [])
  | .ok (si, se) =>
    let st1 := parse_meeting_details env (mkInitialState si se)
    let st2 := validate_details today st1
    let p3 := create_calendar_event today env st2
    match send_confirmation_email env p3.1 with
    | .error e => .error e
    | .ok (st4, c4) =>
      match st4.final_response with
      | some fr => .ok (mkResponse fr, p3.2 ++ c4)
      | none => .error "MeetingResponse missing required fields"

/-! ## Auxiliary definitions used by the theorems below -/

/-- Absence of a complete tag: no greater-than sign occurs after the first
less-than sign.  Text with this property is left unchanged by stripTags. -/
def noTag : List Char → Bool
  | [] => true
  | c :: rest => if c = '<' then !rest.contains '>' else noTag rest

/-- The two angle-bracket characters. -/
def isAngle (c : Char) : Bool := c = '<' || c = '>'

/-- A concrete full cache with one hundred distinct keys, used to witness
the eviction behaviour. -/
def demoStore : TTLStore Nat :=
  ⟨100, 300, (List.range 100).map (fun i => ⟨"k" ++ toString i, 0, 50⟩)⟩

/-! ## Theorems -/

/-- Helper: a string built by appending around a non-empty core is not the
empty string. -/
theorem append_ne_empty_left (s t : String) (h : s.data ≠ []) : s ++ t ≠ "" := by
  intro hc
  apply h
  have : (s ++ t).data = "".data := by rw [hc]
  rw [String.data_append] at this
  exact (List.append_eq_nil.mp this).1

/-- Helper: the GoogleAPIError message is never empty. -/
theorem gerrMsg_ne_empty (a o e : String) : gerrMsg a o e ≠ "" := by
  unfold gerrMsg
  intro hc
  have : (a ++ " " ++ o ++ " failed: " ++ e).data = "".data := by rw [hc]
  simp only [String.data_append] at this
  simp at this

/-- C4: the resilient call wrapper, applied to both the create-event and the
send-email operations, invokes the wrapped operation at most 3 times,
waits 2 then 4 then 8 seconds capped at 10 between attempts, returns the
third-attempt success after exactly 2 waits when the first two attempts
fail, and reraises the last failure when all 3 attempts fail. -/
theorem retry_wrapper_spec :
    (waitExp 1 = 2 ∧ waitExp 2 = 4 ∧ waitExp 3 = 8 ∧ ∀ n, waitExp n ≤ 10) ∧
    (∀ (E A : Type) (op : Nat → Except E A), (retryCall op).2.1 ≤ 3) ∧
    (∀ (E A : Type) (op : Nat → Except E A) (e1 e2 : E) (a : A),
      op 1 = .error e1 → op 2 = .error e2 → op 3 = .ok a →
      retryCall op = (.ok a, 3, [2, 4])) ∧
    (∀ (E A : Type) (op : Nat → Except E A) (e1 e2 e3 : E),
      op 1 = .error e1 → op 2 = .error e2 → op 3 = .error e3 →
      retryCall op = (.error e3, 3, [2, 4])) ∧
    (∀ (A : Type) (op : Nat → Except String A),
      createEventResilient op = retryCall op ∧ sendEmailResilient op = retryCall op) := by
  refine ⟨⟨by decide, by decide, by decide, ?_⟩, ?_, ?_, ?_, ?_⟩
  · intro n
    unfold waitExp
    have h1 : min (2 ^ n) 10 ≤ 10 := Nat.min_le_right _ _
    omega
  · intro E A op
    unfold retryCall
    rcases op 1 with _ | _ <;> rcases op 2 with _ | _ <;> rcases op 3 with _ | _ <;> simp
  · intro E A op e1 e2 a h1 h2 h3
    unfold retryCall
    rw [h1, h2, h3]
    rfl
  · intro E A op e1 e2 e3 h1 h2 h3
    unfold retryCall
    rw [h1, h2, h3]
    rfl
  · intro A op
    exact ⟨rfl, rfl⟩

/-- Witness for C4: an operation failing twice then succeeding returns the
success after waits of 2 and 4 seconds. -/
theorem retry_wrapper_spec_witness :
    retryCall (fun n => if n = 3 then (.ok 7 : Except String Nat) else .error "fail") =
      (.ok 7, 3, [2, 4]) :=
  retry_wrapper_spec.2.2.1 String Nat _ "fail" "fail" 7 rfl rfl rfl

/-- Helper: after a write, looking the written key up finds the fresh entry
at the young end. -/
theorem storeSet_find {V : Type} (s : TTLStore V) (now : Nat) (k : String) (v : V) :
    (storeSet s now k v).entries.find? (fun en => en.key = k) =
      some ⟨k, v, now + s.ttl⟩ := by
  unfold storeSet
  simp only
  rw [List.find?_append]
  have hnone : (((expirePurge now s.entries).filter (fun en => en.key ≠ k)).drop
      (((expirePurge now s.entries).filter (fun en => en.key ≠ k)).length + 1 -
        s.maxsize)).find? (fun en => decide (en.key = k)) = none := by
    rw [List.find?_eq_none]
    intro x hx
    have h1 : x ∈ (expirePurge now s.entries).filter (fun en => en.key ≠ k) :=
      List.drop_subset _ _ hx
    have h2 := List.of_mem_filter h1
    simpa using h2
  rw [hnone]
  simp [List.find?]

/-- Helper: a read directly after a write returns the written value, given a
positive time to live. -/
theorem storeGet_storeSet_same {V : Type} (s : TTLStore V) (now : Nat) (k : String)
    (v : V) (h : 0 < s.ttl) : storeGet (storeSet s now k v) now k = some v := by
  unfold storeGet
  rw [storeSet_find]
  simp only
  rw [if_pos (by omega)]

/-- Helper: a read at or past the expiry of a fresh write misses. -/
theorem storeGet_storeSet_expired {V : Type} (s : TTLStore V) (now d : Nat) (k : String)
    (v : V) (h : s.ttl ≤ d) : storeGet (storeSet s now k v) (now + d) k = none := by
  unfold storeGet
  rw [storeSet_find]
  simp only
  rw [if_neg (by omega)]

/-- Helper: writing a fresh key into a full store of unexpired entries drops
exactly the oldest entry and appends the new one. -/
theorem storeSet_full_evicts {V : Type} (s : TTLStore V) (now : Nat) (k : String) (v : V)
    (hfull : s.entries.length = s.maxsize)
    (hk : ∀ en ∈ s.entries, en.key ≠ k)
    (hexp : ∀ en ∈ s.entries, now < en.expires) :
    (storeSet s now k v).entries = s.entries.tail ++ [⟨k, v, now + s.ttl⟩] := by
  unfold storeSet
  simp only
  have h0 : expirePurge now s.entries = s.entries := by
    unfold expirePurge
    rw [List.filter_eq_self]
    intro x hx
    simpa using hexp x hx
  rw [h0]
  have h1 : s.entries.filter (fun en => en.key ≠ k) = s.entries := by
    rw [List.filter_eq_self]
    intro x hx
    simpa using hk x hx
  rw [h1, hfull]
  have h2 : s.maxsize + 1 - s.maxsize = 1 := by omega
  rw [h2, List.drop_one]

/-- C5: for a cache of capacity 100 and positive time to live, a read
directly after a write returns the written record; a read once the time to
live has elapsed misses; writing a new key into a full cache of unexpired
entries evicts exactly the oldest-inserted entry; and two texts with the
same lower-cased, whitespace-stripped form share one cache key. -/
theorem cache_spec :
    ∀ (V : Type) (s : TTLStore V) (now : Nat) (t : String) (v : V),
      s.maxsize = 100 → 0 < s.ttl →
      (agentGet (agentSet s now t v) now t = some v) ∧
      (∀ d, s.ttl ≤ d → agentGet (agentSet s now t v) (now + d) t = none) ∧
      (s.entries.length = 100 → agentKey t ∉ s.entries.map CEntry.key →
        (∀ en ∈ s.entries, now < en.expires) →
        (agentSet s now t v).entries = s.entries.tail ++ [⟨agentKey t, v, now + s.ttl⟩] ∧
        (agentSet s now t v).entries.length = 100) ∧
      (∀ t2, pyStrip (lowStr t) = pyStrip (lowStr t2) → agentKey t = agentKey t2) := by
  intro V s now t v hmax httl
  refine ⟨storeGet_storeSet_same s now (agentKey t) v httl,
    fun d hd => storeGet_storeSet_expired s now d (agentKey t) v hd, ?_, ?_⟩
  · intro hfull hnmem hexp
    have hk : ∀ en ∈ s.entries, en.key ≠ agentKey t := by
      intro en hen hc
      exact hnmem (hc ▸ List.mem_map_of_mem CEntry.key hen)
    have heq := storeSet_full_evicts s now (agentKey t) v (hmax ▸ hfull) hk hexp
    refine ⟨heq, ?_⟩
    rw [show (agentSet s now t v).entries = (storeSet s now (agentKey t) v).entries from rfl,
      heq, List.length_append, List.length_tail, hfull]
    simp
  · intro t2 h
    unfold agentKey
    exact h

/-- Witness for C5: the behaviour on a concrete full 100-entry cache. -/
theorem cache_spec_witness :
    agentGet (agentSet demoStore 10 "KEY100" 7) 10 "KEY100" = some 7 ∧
    agentGet (agentSet demoStore 10 "KEY100" 7) (10 + 300) "KEY100" = none ∧
    (agentSet demoStore 10 "KEY100" 7).entries =
      demoStore.entries.tail ++ [⟨agentKey "KEY100", 7, 10 + demoStore.ttl⟩] ∧
    (agentSet demoStore 10 "KEY100" 7).entries.length = 100 ∧
    agentKey "Key100 " = agentKey " key100" := by
  obtain ⟨h1, h2, h3, h4⟩ := cache_spec Nat demoStore 10 "KEY100" 7 (by decide) (by decide)
  obtain ⟨h5, h6⟩ := h3 (by decide) (by decide) (by decide)
  exact ⟨h1, h2 300 (by decide), h5, h6, h4 " key100" (by decide)⟩

/-- C9: a context that enters the validate or the create-event stage with a
non-empty error is returned with every field unchanged and no provider
call issued; the notify stage, in contrast, acts on such a context,
sending the failure notification and setting the failure outcome. -/
theorem error_passthrough_spec :
    ∀ (today : CalDate) (env : AgentEnv) (st : AgentState), st.error ≠ "" →
      validate_details today st = st ∧
      create_calendar_event today env st = (st, []) ∧
      (∀ r, env.sendEmailApi st.user_email failSubject (errorEmailBody st.error) = .ok r →
        send_confirmation_email env st =
          .ok ({ st with
                  email_result := some r,
                  final_response := some ⟨false, st.error, none⟩ },
            [ApiCall.sendEmail st.user_email failSubject (errorEmailBody st.error)])) := by
  intro today env st h
  refine ⟨?_, ?_, ?_⟩
  · unfold validate_details
    rw [if_pos h]
  · unfold create_calendar_event
    rw [if_pos h]
  · intro r hr
    unfold send_confirmation_email
    rw [if_pos h, hr]

/-- Witness for C9: a concrete error-carrying context passes through the
two middle stages unchanged and triggers the failure notification. -/
theorem error_passthrough_spec_witness :
    validate_details (2026, 10, 12) { mkInitialState "i" "a@b.com" with error := "E" } =
      { mkInitialState "i" "a@b.com" with error := "E" } ∧
    create_calendar_event (2026, 10, 12)
      ⟨none, .error (), fun _ => .error "x", fun _ _ _ => .ok ⟨"id", "sent"⟩⟩
      { mkInitialState "i" "a@b.com" with error := "E" } =
      ({ mkInitialState "i" "a@b.com" with error := "E" }, []) := by
  obtain ⟨h1, h2, _⟩ := error_passthrough_spec (2026, 10, 12)
    ⟨none, .error (), fun _ => .error "x", fun _ _ _ => .ok ⟨"id", "sent"⟩⟩
    { mkInitialState "i" "a@b.com" with error := "E" } (by decide)
  exact ⟨h1, h2⟩

/-- C1 (code defect): with a non-empty context error entering the notify
stage, the failure-notification send is issued outside any guard, so a
raised send failure escapes run without any FinalOutcome being produced —
here a parse failure followed by a persistently failing notification send
makes run itself end in the raised error.  When the send returns instead,
the failure outcome carrying the original error text is produced. -/
theorem notify_escape_bug :
    run (2026, 10, 12)
      ⟨none, .error (), fun _ => .error "unused", fun _ _ _ => .error "network down"⟩
      "Schedule a sync" "a@b.com" = .error "network down" ∧
    (run (2026, 10, 12)
      ⟨none, .error (), fun _ => .error "unused", fun _ _ _ => .ok ⟨"id", "sent"⟩⟩
      "Schedule a sync" "a@b.com").map (fun p => (p.1.success, p.1.message)) =
      .ok (false, parseErrorMsg "Schedule a sync") := by
  constructor
  · decide
  · decide

/-- Counterexample for C2: when the provider create-event call fails on all
3 attempts of the retry wrapper, the resulting MeetingResponse carries the
provider-failure message in its message field while its error field is
none — not, as claimed, in the error field. -/
theorem provider_failure_error_field_counterexample :
    (run (2026, 10, 12)
      ⟨some ⟨some "Sync", some "2026-12-01", some "14:00", some "15:00", none, none⟩,
       .error (),
       fun _ => (retryCall (fun _ => .error "boom")).1,
       fun _ _ _ => .ok ⟨"id1", "sent"⟩⟩
      "Schedule a sync" "a@b.com").map (fun p => (p.1.message, p.1.error)) =
    .ok ("Calendar create_event failed: boom", none) := by
  decide

/-- C2 (amended): when the create-event call fails on all 3 retry attempts,
run ends with a failure outcome whose message field carries the
provider-failure message tagged with the Calendar provider and the
create_event operation, whose error field is none, and the failure
notification is sent to the requester. -/
theorem provider_failure_outcome_amended :
    ∀ (today : CalDate) (t e si se : String) (d : RawDetails) (m : MeetingDetails)
      (op : Nat → Except String CalResult) (e1 e2 e3 : String) (r : EmailRes)
      (sendF : String → String → String → Except String EmailRes),
      validate_and_sanitize t e = .ok (si, se) →
      mkMeetingDetails today d = .ok m →
      validateCore today d = .pass →
      op 1 = .error e1 → op 2 = .error e2 → op 3 = .error e3 →
      (∀ a b c, sendF a b c = .ok r) →
      run today ⟨some d, .error (), fun _ => (retryCall op).1, sendF⟩ t e =
        .ok (⟨false, gerrMsg "Calendar" "create_event" e3, none, none⟩,
          [ApiCall.createEvent m,
           ApiCall.sendEmail se failSubject
             (errorEmailBody (gerrMsg "Calendar" "create_event" e3))]) := by
  intro today t e si se d m op e1 e2 e3 r sendF hsan hmk hpass hop1 hop2 hop3 hsend
  have hre : retryCall op = (.error e3, 3, [2, 4]) := by
    unfold retryCall
    rw [hop1, hop2, hop3]
    rfl
  simp only [run, hsan]
  have hst1 : parse_meeting_details
      ⟨some d, .error (), fun _ => (retryCall op).1, sendF⟩ (mkInitialState si se) =
      { mkInitialState si se with meeting_details := d } := rfl
  rw [hst1]
  have hst2 : validate_details today { mkInitialState si se with meeting_details := d } =
      { mkInitialState si se with meeting_details := d } := by
    unfold validate_details
    rw [if_neg (by simp [mkInitialState])]
    rw [show ({ mkInitialState si se with meeting_details := d } : AgentState).meeting_details
      = d from rfl]
    rw [hpass]
  rw [hst2]
  have hst3 : create_calendar_event today
      ⟨some d, .error (), fun _ => (retryCall op).1, sendF⟩
      { mkInitialState si se with meeting_details := d } =
      ({ mkInitialState si se with
          meeting_details := d,
          error := gerrMsg "Calendar" "create_event" e3,
          calendar_result := some ⟨false, none, ""⟩ }, [ApiCall.createEvent m]) := by
    unfold create_calendar_event
    rw [if_neg (by simp [mkInitialState])]
    rw [show ({ mkInitialState si se with meeting_details := d } : AgentState).meeting_details
      = d from rfl]
    rw [hmk]
    show (match (retryCall op).1 with
      | .ok r2 => _
      | .error e4 => _) = _
    rw [hre]
  rw [hst3]
  have hne : gerrMsg "Calendar" "create_event" e3 ≠ "" := gerrMsg_ne_empty _ _ _
  unfold send_confirmation_email
  rw [if_pos (by simpa using hne)]
  simp only [hsend, mkResponse, mkInitialState]
  rfl

/-- Witness for C2 (amended): the concrete scenario of the counterexample,
produced by the amended theorem. -/
theorem provider_failure_outcome_amended_witness :
    run (2026, 10, 12)
      ⟨some ⟨some "Sync", some "2026-12-01", some "14:00", some "15:00", none, none⟩,
       .error (),
       fun _ => (retryCall (fun _ => .error "boom")).1,
       fun _ _ _ => .ok ⟨"id1", "sent"⟩⟩
      "Schedule a sync" "a@b.com" =
      .ok (⟨false, gerrMsg "Calendar" "create_event" "boom", none, none⟩,
        [ApiCall.createEvent ⟨"Sync", "2026-12-01", "14:00", "15:00", none, none⟩,
         ApiCall.sendEmail "a@b.com" failSubject
           (errorEmailBody (gerrMsg "Calendar" "create_event" "boom"))]) := by
  exact provider_failure_outcome_amended (2026, 10, 12) "Schedule a sync" "a@b.com"
    "Schedule a sync" "a@b.com"
    ⟨some "Sync", some "2026-12-01", some "14:00", some "15:00", none, none⟩
    ⟨"Sync", "2026-12-01", "14:00", "15:00", none, none⟩
    (fun _ => .error "boom") "boom" "boom" "boom" ⟨"id1", "sent"⟩
    (fun _ _ _ => .ok ⟨"id1", "sent"⟩)
    (by decide) (by decide) (by decide) rfl rfl rfl (fun _ _ _ => rfl)

/-- C3: when event creation succeeds and the success-notification send then
fails, run ends in a failure outcome whose message notes that the event was
created but the notification failed; the trace shows exactly one create
call, never compensated, and exactly one stage-level send attempt. -/
theorem partial_success_spec :
    ∀ (today : CalDate) (t e si se : String) (tt ds stt ett : String)
      (att dsc : Option String) (m : MeetingDetails) (link : Option String)
      (cm em : String)
      (sendF : String → String → String → Except String EmailRes),
      validate_and_sanitize t e = .ok (si, se) →
      mkMeetingDetails today ⟨some tt, some ds, some stt, some ett, att, dsc⟩ = .ok m →
      validateCore today ⟨some tt, some ds, some stt, some ett, att, dsc⟩ = .pass →
      (∀ a b c, sendF a b c = .error em) →
      run today ⟨some ⟨some tt, some ds, some stt, some ett, att, dsc⟩, .error (),
          fun _ => .ok ⟨true, link, cm⟩, sendF⟩ t e =
        .ok (⟨false,
            "Event created but email failed: " ++ gerrMsg "Gmail" "send_email" em,
            none, none⟩,
          [ApiCall.createEvent m,
           ApiCall.sendEmail se ("✅ Meeting Scheduled: " ++ tt)
             (successEmailBody tt ds stt ett att link)]) := by
  intro today t e si se tt ds stt ett att dsc m link cm em sendF hsan hmk hpass hsend
  simp only [run, hsan]
  have hst1 : parse_meeting_details
      ⟨some ⟨some tt, some ds, some stt, some ett, att, dsc⟩, .error (),
        fun _ => .ok ⟨true, link, cm⟩, sendF⟩ (mkInitialState si se) =
      { mkInitialState si se with
          meeting_details := ⟨some tt, some ds, some stt, some ett, att, dsc⟩ } := rfl
  rw [hst1]
  have hst2 : validate_details today
      { mkInitialState si se with
          meeting_details := ⟨some tt, some ds, some stt, some ett, att, dsc⟩ } =
      { mkInitialState si se with
          meeting_details := ⟨some tt, some ds, some stt, some ett, att, dsc⟩ } := by
    unfold validate_details
    rw [if_neg (by simp [mkInitialState])]
    rw [show ({ mkInitialState si se with
        meeting_details := ⟨some tt, some ds, some stt, some ett, att, dsc⟩ } :
        AgentState).meeting_details = ⟨some tt, some ds, some stt, some ett, att, dsc⟩
      from rfl]
    rw [hpass]
  rw [hst2]
  have hst3 : create_calendar_event today
      ⟨some ⟨some tt, some ds, some stt, some ett, att, dsc⟩, .error (),
        fun _ => .ok ⟨true, link, cm⟩, sendF⟩
      { mkInitialState si se with
          meeting_details := ⟨some tt, some ds, some stt, some ett, att, dsc⟩ } =
      ({ mkInitialState si se with
          meeting_details := ⟨some tt, some ds, some stt, some ett, att, dsc⟩,
          calendar_result := some ⟨true, link, cm⟩ }, [ApiCall.createEvent m]) := by
    unfold create_calendar_event
    rw [if_neg (by simp [mkInitialState])]
    rw [show ({ mkInitialState si se with
        meeting_details := ⟨some tt, some ds, some stt, some ett, att, dsc⟩ } :
        AgentState).meeting_details = ⟨some tt, some ds, some stt, some ett, att, dsc⟩
      from rfl]
    rw [hmk]
    rfl
  rw [hst3]
  unfold send_confirmation_email
  rw [if_neg (by simp [mkInitialState])]
  simp only [successEmailContent, mkInitialState, hsend, emailFailState, mkResponse]
  rfl

/-- Witness for C3: a concrete run in which the event is created and the
notification send raises. -/
theorem partial_success_spec_witness :
    run (2026, 10, 12)
      ⟨some ⟨some "Sync", some "2026-12-01", some "14:00", some "15:00", none, none⟩,
       .error (),
       fun _ => .ok ⟨true, some "http://cal/1", "created"⟩,
       fun _ _ _ => .error "smtp down"⟩
      "Schedule a sync" "a@b.com" =
      .ok (⟨false,
          "Event created but email failed: " ++ gerrMsg "Gmail" "send_email" "smtp down",
          none, none⟩,
        [ApiCall.createEvent ⟨"Sync", "2026-12-01", "14:00", "15:00", none, none⟩,
         ApiCall.sendEmail "a@b.com" ("✅ Meeting Scheduled: " ++ "Sync")
           (successEmailBody "Sync" "2026-12-01" "14:00" "15:00" none (some "http://cal/1"))]) :=
  partial_success_spec (2026, 10, 12) "Schedule a sync" "a@b.com"
    "Schedule a sync" "a@b.com" "Sync" "2026-12-01" "14:00" "15:00" none none
    ⟨"Sync", "2026-12-01", "14:00", "15:00", none, none⟩ (some "http://cal/1")
    "created" "smtp down" (fun _ _ _ => .error "smtp down")
    (by decide) (by decide) (by decide) (fun _ _ _ => rfl)

/-- C10: along a pipeline run the context error starts empty, no stage
replaces or clears a non-empty error, and a successful final outcome can
arise only when the error stayed empty through every stage. -/
theorem error_monotone_spec :
    ∀ (today : CalDate) (env : AgentEnv) (si se : String)
      (st1 st2 st3 st4 : AgentState) (tr3 tr4 : List ApiCall),
      parse_meeting_details env (mkInitialState si se) = st1 →
      validate_details today st1 = st2 →
      create_calendar_event today env st2 = (st3, tr3) →
      send_confirmation_email env st3 = .ok (st4, tr4) →
      (mkInitialState si se).error = "" ∧
      (st1.error ≠ "" → st2.error = st1.error) ∧
      (st2.error ≠ "" → st3.error = st2.error) ∧
      (st3.error ≠ "" → st4.error = st3.error) ∧
      (∀ fr, st4.final_response = some fr → fr.success = true →
        st1.error = "" ∧ st2.error = "" ∧ st3.error = "" ∧ st4.error = "") := by
  intro today env si se st1 st2 st3 st4 tr3 tr4 h1 h2 h3 h4
  have hval : st1.error ≠ "" → st2 = st1 := by
    intro h
    rw [← h2]
    unfold validate_details
    rw [if_pos h]
  have hcre : st2.error ≠ "" → st3 = st2 := by
    intro h
    have heq : create_calendar_event today env st2 = (st2, []) := by
      unfold create_calendar_event
      rw [if_pos h]
    rw [h3] at heq
    injection heq with ha hb
  have hnot : st3.error ≠ "" → st4.error = st3.error ∧
      st4.final_response = some ⟨false, st3.error, none⟩ := by
    intro h
    unfold send_confirmation_email at h4
    rw [if_pos h] at h4
    rcases hse : env.sendEmailApi st3.user_email failSubject (errorEmailBody st3.error) with
      er | r
    · rw [hse] at h4
      exact absurd h4 (fun hc => Except.noConfusion hc)
    · rw [hse] at h4
      have hpair := Except.ok.inj h4
      injection hpair with ha hb
      rw [← ha]
      exact ⟨rfl, rfl⟩
  refine ⟨rfl, fun h => by rw [hval h], fun h => by rw [hcre h], fun h => (hnot h).1, ?_⟩
  intro fr hfr hsucc
  by_cases hc3 : st3.error = ""
  · have hc2 : st2.error = "" := by
      by_contra hc
      rw [hcre hc] at hc3
      exact hc hc3
    have hc1 : st1.error = "" := by
      by_contra hc
      rw [hval hc] at hc2
      exact hc hc2
    refine ⟨hc1, hc2, hc3, ?_⟩
    unfold send_confirmation_email at h4
    rw [if_neg (by simpa using hc3)] at h4
    rcases hec : successEmailContent st3 with ke | sb
    · rw [hec] at h4
      have hpair := Except.ok.inj h4
      injection hpair with ha hb
      rw [← ha] at hfr
      unfold emailFailState at hfr
      simp only at hfr
      have hfr2 : fr = ⟨false, "Event created but email failed: " ++
          gerrMsg "Gmail" "send_email" ke, none⟩ := (Option.some.inj hfr).symm
      rw [hfr2] at hsucc
      simp at hsucc
    · rcases sb with ⟨subj, body⟩
      rcases hse : env.sendEmailApi st3.user_email subj body with er | r
      · simp only [hec, hse] at h4
        have hpair := Except.ok.inj h4
        injection hpair with ha hb
        rw [← ha] at hfr
        unfold emailFailState at hfr
        simp only at hfr
        have hfr2 : fr = ⟨false, "Event created but email failed: " ++
            gerrMsg "Gmail" "send_email" er, none⟩ := (Option.some.inj hfr).symm
        rw [hfr2] at hsucc
        simp at hsucc
      · simp only [hec, hse] at h4
        have hpair := Except.ok.inj h4
        injection hpair with ha hb
        rw [← ha]
        exact hc3
  · obtain ⟨he, hfr4⟩ := hnot hc3
    rw [hfr4] at hfr
    have hfr2 : fr = ⟨false, st3.error, none⟩ := (Option.some.inj hfr).symm
    rw [hfr2] at hsucc
    simp at hsucc

/-- Witness for C10: on a concrete fully-successful run the error field is
empty at every stage boundary. -/
theorem error_monotone_spec_witness :
    (parse_meeting_details
      ⟨some ⟨some "Sync", some "2026-12-01", some "14:00", some "15:00", none, none⟩,
        .error (), fun _ => .ok ⟨true, some "http://cal/1", "created"⟩,
        fun _ _ _ => .ok ⟨"id", "sent"⟩⟩
      (mkInitialState "schedule a sync" "a@b.com")).error = "" ∧
    (mkInitialState "schedule a sync" "a@b.com").error = "" := by
  have h := error_monotone_spec (2026, 10, 12)
    ⟨some ⟨some "Sync", some "2026-12-01", some "14:00", some "15:00", none, none⟩,
      .error (), fun _ => .ok ⟨true, some "http://cal/1", "created"⟩,
      fun _ _ _ => .ok ⟨"id", "sent"⟩⟩
    "schedule a sync" "a@b.com" _ _ _ _ _ _ rfl rfl rfl rfl
  obtain ⟨hinit, _, _, _, hfin⟩ := h
  obtain ⟨he1, he2, he3, he4⟩ := hfin ⟨true, "Meeting scheduled successfully!",
    some "http://cal/1"⟩ (by decide) rfl
  exact ⟨he1, hinit⟩

/-- C7: validate_and_sanitize fails exactly when the raw text is longer
than 500 characters, empty after trimming, or matches an injection pattern
in its lower-cased raw form (checked before any markup stripping), or the
normalised email fails the address pattern or exceeds 254 characters; and
such a failure is surfaced directly as the final outcome of run, with no
pipeline stage issuing any provider call. -/
theorem sanitizer_rejection_spec :
    ∀ (t e : String),
      ((∃ v, validate_and_sanitize t e = .error v) ↔
        (t.length > 500 ∨ (pyStrip t).length = 0 ∨ hasInjection t = true ∨
         isEmailFormat (normEmail e) = false ∨ (normEmail e).length > 254)) ∧
      (∀ (today : CalDate) (env : AgentEnv) (v : ValidationErr),
        validate_and_sanitize t e = .error v →
        run today env t e = .ok (⟨false, v.msg, none, some v.msg⟩, [])) := by
  intro t e
  refine ⟨⟨?_, ?_⟩, ?_⟩
  · rintro ⟨v, hv⟩
    by_contra hno
    push_neg at hno
    obtain ⟨n1, n2, n3, n4, n5⟩ := hno
    have hs : sanitize_user_input t = .ok (sanitizeText t) := by
      unfold sanitize_user_input
      rw [if_neg (by omega), if_neg n2, if_neg (by simpa using n3)]
    have he : validate_email e = .ok (normEmail e) := by
      unfold validate_email
      simp only
      rw [if_neg (by simpa using n4), if_neg (by omega)]
    unfold validate_and_sanitize at hv
    rw [hs, he] at hv
    exact Except.noConfusion hv
  · intro hd
    rcases hs : sanitize_user_input t with v | s
    · exact ⟨v, by unfold validate_and_sanitize; rw [hs]⟩
    · rcases he : validate_email e with v | em
      · exact ⟨v, by unfold validate_and_sanitize; rw [hs, he]⟩
      · exfalso
        have h1 : ¬(t.length > 500) := by
          intro hc
          unfold sanitize_user_input at hs
          rw [if_pos hc] at hs
          exact Except.noConfusion hs
        have h2 : ¬((pyStrip t).length = 0) := by
          intro hc
          unfold sanitize_user_input at hs
          rw [if_neg h1, if_pos hc] at hs
          exact Except.noConfusion hs
        have h3 : ¬(hasInjection t = true) := by
          intro hc
          unfold sanitize_user_input at hs
          rw [if_neg h1, if_neg h2, if_pos hc] at hs
          exact Except.noConfusion hs
        have h4 : ¬(isEmailFormat (normEmail e) = false) := by
          intro hc
          unfold validate_email at he
          simp only at he
          rw [if_pos (by simpa using hc)] at he
          exact Except.noConfusion he
        have h5 : ¬((normEmail e).length > 254) := by
          intro hc
          unfold validate_email at he
          simp only at he
          rw [if_neg (by simpa using h4), if_pos hc] at he
          exact Except.noConfusion he
        rcases hd with h | h | h | h | h
        · exact h1 h
        · exact h2 h
        · exact h3 h
        · exact h4 h
        · exact h5 h
  · intro today env v h
    simp only [run, h]

/-- Witness for C7: the empty input is rejected before the pipeline runs,
and the rejection is the final outcome with an empty call trace. -/
theorem sanitizer_rejection_spec_witness :
    run (2026, 10, 12) ⟨none, .error (), fun _ => .error "x", fun _ _ _ => .error "y"⟩
      "" "a@b.com" =
      .ok (⟨false, ValidationErr.msg ⟨"user_input", "", "Input cannot be empty"⟩, none,
        some (ValidationErr.msg ⟨"user_input", "", "Input cannot be empty"⟩)⟩, []) :=
  (sanitizer_rejection_spec "" "a@b.com").2 (2026, 10, 12)
    ⟨none, .error (), fun _ => .error "x", fun _ _ _ => .error "y"⟩
    ⟨"user_input", "", "Input cannot be empty"⟩ (by decide)

/-- Counterexample for C8: a record whose only violation is the missing
required title field produces a ValidationFailure naming the field
"unknown" and carrying the whole record as the value — not the offending
field and its value as claimed. -/
theorem validation_unknown_field_counterexample :
    (validate_details (2026, 10, 12)
      { mkInitialState "i" "e@x.com" with
        meeting_details := ⟨none, some "2026-12-01", some "14:00", some "15:00", none, none⟩ }).error =
    ValidationErr.msg ⟨"unknown",
      "\x7b\x27date\x27: \x272026-12-01\x27, \x27start_time\x27: \x2714:00\x27, \x27end_time\x27: \x2715:00\x27\x7d",
      "1 validation error for MeetingDetails\ntitle\n  Field required [type=missing, input_value=\x7b\x27date\x27: \x272026-12-01\x27, \x27start_time\x27: \x2714:00\x27, \x27end_time\x27: \x2715:00\x27\x7d, input_type=dict]"⟩ := by
  decide

/-- Helper: every member of a newline-joined message list is an infix of
the joined text. -/
theorem mem_joinNl_part (a : String) : ∀ (xs : List String), a ∈ xs →
    a.data <:+: (joinNl xs).data := by
  intro xs
  induction xs with
  | nil => intro h; exact absurd h (List.not_mem_nil a)
  | cons x xs ih =>
    intro h
    rcases List.mem_cons.mp h with h | h
    · subst h
      cases xs with
      | nil => exact List.infix_rfl
      | cons y ys =>
        show a.data <:+: (a ++ "\n" ++ joinNl (y :: ys)).data
        rw [String.data_append, String.data_append, List.append_assoc]
        exact ((List.prefix_append a.data _).isInfix)
    · cases xs with
      | nil => exact absurd h (List.not_mem_nil a)
      | cons y ys =>
        have h2 := ih h
        show a.data <:+: (x ++ "\n" ++ joinNl (y :: ys)).data
        rw [String.data_append]
        exact h2.trans (List.suffix_append _ _).isInfix

/-- Helper: an infix of a string is an infix of any left-extension. -/
theorem part_data_append_left (x y : String) (a : List Char) (h : a <:+: y.data) :
    a <:+: (x ++ y).data := by
  rw [String.data_append]
  exact h.trans (List.suffix_append _ _).isInfix

/-- Helper: an infix of the joined entry list is an infix of the full
model report. -/
theorem part_report (errs : List String) (a : List Char)
    (h : a <:+: (joinNl errs).data) : a <:+: (pydanticReport errs).data := by
  unfold pydanticReport
  exact part_data_append_left _ _ _ h

/-- Helper: an infix of a character list is an infix of any
right-extension. -/
theorem part_append_right (a l t : List Char) (h : a <:+: l) : a <:+: l ++ t :=
  h.trans (List.prefix_append l t).isInfix

/-- Helper: the constant head of the past-date entry is an infix of the
whole entry. -/
theorem past_entry_head (ds : String) :
    ("date\n  Value error, Invalid date format. Use YYYY-MM-DD: " ++
      "Meeting date cannot be in the past" : String).data <:+:
    (dateValueEntry "Meeting date cannot be in the past" ds).data := by
  unfold dateValueEntry
  simp only [String.data_append]
  exact part_append_right _ _ _ (part_append_right _ _ _
    (part_append_right _ _ _ List.infix_rfl))

/-- Helper: the substring test holds for the lower-cased whole when a piece
is an infix of the whole and the wanted text is a substring of the piece's
lower-cased form. -/
theorem containsSub_low_of_infix (sub piece msg : String)
    (h1 : sub.data <:+: (lowStr piece).data) (h2 : piece.data <:+: msg.data) :
    containsSub (lowStr msg) sub = true := by
  unfold containsSub
  rw [decide_eq_true_eq]
  have h3 : (lowStr piece).data <:+: (lowStr msg).data := List.IsInfix.map lowChar h2
  exact h1.trans h3

/-- C8 (amended): on an error-free context, an end time not strictly after
the start time yields the same-time ValidationFailure naming the end_time
field and value, and a well-formed date earlier than the current date
yields the past-date ValidationFailure naming the date field and value;
every other model violation is classified only by a substring test on the
report text: the past-date rejection when the lower-cased report mentions
both date and past, and otherwise a ValidationFailure with the field
"unknown" and the whole record as the value, the report as the reason —
the offending field and value are not named. -/
theorem validation_failure_amended :
    ∀ (today : CalDate) (st : AgentState), st.error = "" →
      (∀ (m : MeetingDetails) (ts te : Nat × Nat),
        mkMeetingDetails today st.meeting_details = .ok m →
        parseTimeHM m.start_time = some ts → parseTimeHM m.end_time = some te →
        timeLe te ts = true →
        validate_details today st =
          { st with error := (ValidationErr.msg
              ⟨"end_time", m.end_time, "End time must be after start time"⟩) }) ∧
      (∀ ds dt, st.meeting_details.date = some ds → parseDateYMD ds = some dt →
        dateLt dt today = true →
        validate_details today st =
          { st with error := ValidationErr.msg ⟨"date", ds, "Date cannot be in the past"⟩ }) ∧
      (∀ e, mkMeetingDetails today st.meeting_details = .error e →
        validate_details today st =
          (if containsSub (lowStr e) "date" && containsSub (lowStr e) "past" then
            { st with error := (ValidationErr.msg
                ⟨"date", st.meeting_details.date.getD "", "Date cannot be in the past"⟩) }
          else
            { st with error := (ValidationErr.msg
                ⟨"unknown", reprRaw st.meeting_details, e⟩) })) := by
  intro today st herr
  refine ⟨?_, ?_, ?_⟩
  · intro m ts te hmk hts hte hle
    unfold validate_details
    rw [if_neg (by simp [herr])]
    simp only [validateCore, hmk, hts, hte, hle, if_true]
  · intro ds dt hd hp hlt
    have hok : strptimeYMD ds = .ok dt := by
      unfold parseDateYMD at hp
      cases hq : strptimeYMD ds with
      | error e2 => rw [hq] at hp; exact absurd hp (by simp [Except.toOption])
      | ok v =>
        rw [hq] at hp
        simp only [Except.toOption, Option.some.injEq] at hp
        rw [hp]
    have hmem : dateValueEntry "Meeting date cannot be in the past" ds
        ∈ pydanticErrs today st.meeting_details := by
      simp [pydanticErrs, dateErrList, hd, hok, hlt]
    have hie : (pydanticErrs today st.meeting_details).isEmpty = false := by
      cases hq : pydanticErrs today st.meeting_details with
      | nil => rw [hq] at hmem; exact absurd hmem (List.not_mem_nil _)
      | cons a l => rfl
    have hmk : mkMeetingDetails today st.meeting_details =
        .error (pydanticReport (pydanticErrs today st.meeting_details)) := by
      unfold mkMeetingDetails
      rcases ht : st.meeting_details.title with _ | tv <;>
        rcases hs2 : st.meeting_details.start_time with _ | sv <;>
        rcases he2 : st.meeting_details.end_time with _ | ev <;>
        rw [hd] <;> simp [hie]
    have hhead : ("date\n  Value error, Invalid date format. Use YYYY-MM-DD: " ++
        "Meeting date cannot be in the past" : String).data
        <:+: (pydanticReport (pydanticErrs today st.meeting_details)).data :=
      (past_entry_head ds).trans (part_report _ _ (mem_joinNl_part _ _ hmem))
    have hdate : containsSub
        (lowStr (pydanticReport (pydanticErrs today st.meeting_details))) "date" = true :=
      containsSub_low_of_infix _ _ _ (by decide) hhead
    have hpast : containsSub
        (lowStr (pydanticReport (pydanticErrs today st.meeting_details))) "past" = true :=
      containsSub_low_of_infix _ _ _ (by decide) hhead
    unfold validate_details
    rw [if_neg (by simp [herr])]
    simp only [validateCore, hmk, hdate, hpast, Bool.and_self, if_true, hd, Option.getD_some]
  · intro e hmk
    unfold validate_details
    rw [if_neg (by simp [herr])]
    simp only [validateCore, hmk]

/-- Witness for C8 (amended): the same-time rejection and the past-date
rejection on concrete records. -/
theorem validation_failure_amended_witness :
    validate_details (2026, 10, 12)
      { mkInitialState "i" "e@x.com" with
        meeting_details := ⟨some "Sync", some "2026-12-01", some "14:00", some "14:00", none, none⟩ } =
      { mkInitialState "i" "e@x.com" with
        meeting_details := ⟨some "Sync", some "2026-12-01", some "14:00", some "14:00", none, none⟩,
        error := (ValidationErr.msg ⟨"end_time", "14:00", "End time must be after start time"⟩) } ∧
    validate_details (2026, 10, 12)
      { mkInitialState "i" "e@x.com" with
        meeting_details := ⟨some "Sync", some "2020-01-01", some "14:00", some "15:00", none, none⟩ } =
      { mkInitialState "i" "e@x.com" with
        meeting_details := ⟨some "Sync", some "2020-01-01", some "14:00", some "15:00", none, none⟩,
        error := (ValidationErr.msg ⟨"date", "2020-01-01", "Date cannot be in the past"⟩) } := by
  constructor
  · exact (validation_failure_amended (2026, 10, 12) _ rfl).1
      ⟨"Sync", "2026-12-01", "14:00", "14:00", none, none⟩ (14, 0) (14, 0)
      (by decide) (by decide) (by decide) (by decide)
  · exact (validation_failure_amended (2026, 10, 12) _ rfl).2.1
      "2020-01-01" (2020, 1, 1) rfl (by decide) (by decide)

/-- Counterexample for C6: the input consisting of one tag satisfies every
acceptance condition of the claim, sanitizes to the empty string, and
re-applying validate_and_sanitize to that output is rejected — idempotence
fails as stated. -/
theorem sanitize_idempotence_counterexample :
    validate_and_sanitize "<a>" "a@b.com" = .ok ("", "a@b.com") ∧
    validate_and_sanitize "" "a@b.com" =
      .error ⟨"user_input", "", "Input cannot be empty"⟩ := by
  constructor
  · decide
  · decide

/-- Helper: stripTagsF on the empty list, any fuel. -/
theorem stripTagsF_nil : ∀ f, stripTagsF f [] = [] := by
  intro f
  cases f <;> rfl

/-- Helper: the tag-skip step shrinks the list. -/
theorem dropGt_len (rest : List Char) :
    ((rest.dropWhile (fun x => x ≠ '>')).drop 1).length ≤ rest.length := by
  have h1 := (List.dropWhile_suffix (l := rest) (fun x => x ≠ '>')).length_le
  rw [List.length_drop]
  omega

/-- Helper: stripTagsF does not depend on the fuel once it dominates the
list length. -/
theorem stripTagsF_congr : ∀ (f1 : Nat) (l : List Char) (f2 : Nat),
    l.length ≤ f1 → l.length ≤ f2 → stripTagsF f1 l = stripTagsF f2 l := by
  intro f1
  induction f1 with
  | zero =>
    intro l f2 h1 _
    have : l = [] := List.eq_nil_of_length_eq_zero (Nat.le_zero.mp h1)
    subst this
    rw [stripTagsF_nil, stripTagsF_nil]
  | succ f ih =>
    intro l f2 h1 h2
    cases l with
    | nil => rw [stripTagsF_nil, stripTagsF_nil]
    | cons c rest =>
      cases f2 with
      | zero => simp at h2
      | succ f2' =>
        simp only [List.length_cons] at h1 h2
        rcases hb : c = '<' && rest.contains '>' with _ | _
        · simp only [stripTagsF, hb]
          simp only [Bool.false_eq_true, if_false]
          rw [ih rest f2' (by omega) (by omega)]
        · simp only [stripTagsF, hb, if_true]
          have hlen := dropGt_len rest
          exact ih _ f2' (by omega) (by omega)

/-- Helper: the one-step unfolding of stripTags. -/
theorem stripTags_cons (c : Char) (rest : List Char) :
    stripTags (c :: rest) =
      if c = '<' && rest.contains '>' then
        stripTags ((rest.dropWhile (fun x => x ≠ '>')).drop 1)
      else c :: stripTags rest := by
  show stripTagsF (rest.length + 1) (c :: rest) = _
  rcases hb : c = '<' && rest.contains '>' with _ | _
  · simp only [stripTagsF, hb, Bool.false_eq_true, if_false]
    rfl
  · simp only [stripTagsF, hb, if_true]
    unfold stripTags
    exact stripTagsF_congr _ _ _ (by have := dropGt_len rest; omega) (by omega)

/-- Helper: splitWsF on the empty list, any fuel. -/
theorem splitWsF_nil : ∀ f, splitWsF f [] = [] := by
  intro f
  cases f <;> rfl

/-- Helper: splitWsF does not depend on the fuel once it dominates the list
length. -/
theorem splitWsF_congr : ∀ (f1 : Nat) (l : List Char) (f2 : Nat),
    l.length ≤ f1 → l.length ≤ f2 → splitWsF f1 l = splitWsF f2 l := by
  intro f1
  induction f1 with
  | zero =>
    intro l f2 h1 _
    have : l = [] := List.eq_nil_of_length_eq_zero (Nat.le_zero.mp h1)
    subst this
    rw [splitWsF_nil, splitWsF_nil]
  | succ f ih =>
    intro l f2 h1 h2
    cases l with
    | nil => rw [splitWsF_nil, splitWsF_nil]
    | cons c rest =>
      cases f2 with
      | zero => simp at h2
      | succ f2' =>
        simp only [List.length_cons] at h1 h2
        rcases hb : isPyWs c with _ | _
        · simp only [splitWsF, hb]
          simp only [Bool.false_eq_true, if_false]
          have hlen := (List.dropWhile_suffix
            (l := rest) (fun x => !isPyWs x)).length_le
          rw [ih (rest.dropWhile (fun x => !isPyWs x)) f2' (by omega) (by omega)]
        · simp only [splitWsF, hb, if_true]
          exact ih rest f2' (by omega) (by omega)

/-- Helper: the one-step unfolding of splitWs on a whitespace head. -/
theorem splitWs_cons_ws (c : Char) (rest : List Char) (h : isPyWs c = true) :
    splitWs (c :: rest) = splitWs rest := by
  show splitWsF (rest.length + 1) (c :: rest) = _
  simp only [splitWsF, h, if_true]
  exact splitWsF_congr _ _ _ (by omega) (by omega)


/-- Helper: the one-step unfolding of splitWs on a word head. -/
theorem splitWs_cons_word (c : Char) (rest : List Char) (h : isPyWs c = false) :
    splitWs (c :: rest) =
      (c :: rest.takeWhile (fun x => !isPyWs x)) ::
        splitWs (rest.dropWhile (fun x => !isPyWs x)) := by
  show splitWsF (rest.length + 1) (c :: rest) = _
  simp only [splitWsF, h, Bool.false_eq_true, if_false]
  have hlen := (List.dropWhile_suffix (l := rest) (fun x => !isPyWs x)).length_le
  rw [splitWsF_congr rest.length (rest.dropWhile (fun x => !isPyWs x))
    (rest.dropWhile (fun x => !isPyWs x)).length (by omega) (by omega)]
  rfl

/-- Helper: members of a takeWhile prefix satisfy the predicate. -/
theorem mem_takeWhile_pred {α : Type} (p : α → Bool) :
    ∀ (l : List α) (x : α), x ∈ l.takeWhile p → p x = true := by
  intro l
  induction l with
  | nil => intro x h; exact absurd h (List.not_mem_nil x)
  | cons c rest ih =>
    intro x h
    rcases hp : p c with _ | _
    · rw [List.takeWhile_cons, hp] at h
      exact absurd h (List.not_mem_nil x)
    · rw [List.takeWhile_cons, hp] at h
      rcases List.mem_cons.mp h with h | h
      · rw [h]; exact hp
      · exact ih x h

/-- Helper: takeWhile runs through a block that satisfies the predicate. -/
theorem takeWhile_append_all {α : Type} (p : α → Bool) :
    ∀ (w r : List α), (∀ x ∈ w, p x = true) →
      (w ++ r).takeWhile p = w ++ r.takeWhile p := by
  intro w
  induction w with
  | nil => intro r _; rfl
  | cons c w ih =>
    intro r h
    have hc : p c = true := h c (List.mem_cons_self c w)
    rw [List.cons_append, List.takeWhile_cons, hc]
    rw [ih r (fun x hx => h x (List.mem_cons_of_mem c hx))]
    rfl

/-- Helper: dropWhile passes over a block that satisfies the predicate. -/
theorem dropWhile_append_all {α : Type} (p : α → Bool) :
    ∀ (w r : List α), (∀ x ∈ w, p x = true) →
      (w ++ r).dropWhile p = r.dropWhile p := by
  intro w
  induction w with
  | nil => intro r _; rfl
  | cons c w ih =>
    intro r h
    have hc : p c = true := h c (List.mem_cons_self c w)
    rw [List.cons_append, List.dropWhile_cons, hc]
    exact ih r (fun x hx => h x (List.mem_cons_of_mem c hx))

/-- Helper: every word of splitWs is non-empty and whitespace-free. -/
theorem splitWs_words : ∀ (f : Nat) (l : List Char), l.length ≤ f →
    ∀ w ∈ splitWs l, w ≠ [] ∧ ∀ c ∈ w, isPyWs c = false := by
  intro f
  induction f with
  | zero =>
    intro l h1 w hw
    have : l = [] := List.eq_nil_of_length_eq_zero (Nat.le_zero.mp h1)
    subst this
    exact absurd hw (List.not_mem_nil w)
  | succ f ih =>
    intro l h1 w hw
    cases l with
    | nil => exact absurd hw (List.not_mem_nil w)
    | cons c rest =>
      simp only [List.length_cons] at h1
      rcases hb : isPyWs c with _ | _
      · rw [splitWs_cons_word c rest hb] at hw
        rcases List.mem_cons.mp hw with h | h
        · subst h
          refine ⟨by simp, ?_⟩
          intro x hx
          rcases List.mem_cons.mp hx with h | h
          · rw [h]; exact hb
          · have := mem_takeWhile_pred _ rest x h
            simpa using this
        · have hlen := (List.dropWhile_suffix (l := rest) (fun x => !isPyWs x)).length_le
          exact ih _ (by omega) w h
      · rw [splitWs_cons_ws c rest hb] at hw
        exact ih rest (by omega) w hw

/-- Helper: an empty splitWs means the text is all whitespace. -/
theorem splitWs_eq_nil : ∀ (f : Nat) (l : List Char), l.length ≤ f →
    splitWs l = [] → ∀ c ∈ l, isPyWs c = true := by
  intro f
  induction f with
  | zero =>
    intro l h1 _ c hc
    have : l = [] := List.eq_nil_of_length_eq_zero (Nat.le_zero.mp h1)
    subst this
    exact absurd hc (List.not_mem_nil c)
  | succ f ih =>
    intro l h1 hnil c hc
    cases l with
    | nil => exact absurd hc (List.not_mem_nil c)
    | cons d rest =>
      simp only [List.length_cons] at h1
      rcases hb : isPyWs d with _ | _
      · rw [splitWs_cons_word d rest hb] at hnil
        exact absurd hnil (by simp)
      · rw [splitWs_cons_ws d rest hb] at hnil
        rcases List.mem_cons.mp hc with h | h
        · rw [h]; exact hb
        · exact ih rest (by omega) hnil c h

/-- Helper: splitting the space-joined words recovers the words. -/
theorem splitWs_joinSp : ∀ (ws : List (List Char)),
    (∀ w ∈ ws, w ≠ [] ∧ ∀ c ∈ w, isPyWs c = false) →
    splitWs (joinSp ws) = ws := by
  intro ws
  induction ws with
  | nil => intro _; rfl
  | cons w ws ih =>
    intro h
    obtain ⟨hw, hwc⟩ := h w (List.mem_cons_self w ws)
    cases ws with
    | nil =>
      show splitWs w = [w]
      cases w with
      | nil => exact absurd rfl hw
      | cons c w' =>
        have hc : isPyWs c = false := hwc c (List.mem_cons_self c w')
        rw [splitWs_cons_word c w' hc]
        have ht : w'.takeWhile (fun x => !isPyWs x) = w' := by
          rw [List.takeWhile_eq_self_iff]
          intro x hx
          simp [hwc x (List.mem_cons_of_mem c hx)]
        have hd : w'.dropWhile (fun x => !isPyWs x) = [] := by
          rw [List.dropWhile_eq_nil_iff]
          intro x hx
          simp [hwc x (List.mem_cons_of_mem c hx)]
        rw [ht, hd]
        rfl
    | cons w2 ws2 =>
      show splitWs (w ++ ' ' :: joinSp (w2 :: ws2)) = w :: w2 :: ws2
      cases w with
      | nil => exact absurd rfl hw
      | cons c w' =>
        have hc : isPyWs c = false := hwc c (List.mem_cons_self c w')
        have hwc' : ∀ x ∈ w', (fun x => !isPyWs x) x = true := by
          intro x hx
          simp [hwc x (List.mem_cons_of_mem c hx)]
        rw [List.cons_append, splitWs_cons_word c _ hc]
        rw [takeWhile_append_all _ w' _ hwc', dropWhile_append_all _ w' _ hwc']
        have hsp : (' ' :: joinSp (w2 :: ws2)).takeWhile (fun x => !isPyWs x) = [] := by
          rw [List.takeWhile_cons]
          simp [isPyWs]
        have hsp2 : (' ' :: joinSp (w2 :: ws2)).dropWhile (fun x => !isPyWs x) =
            ' ' :: joinSp (w2 :: ws2) := by
          rw [List.dropWhile_cons]
          simp [isPyWs]
        rw [hsp, hsp2, List.append_nil]
        rw [splitWs_cons_ws ' ' _ (by simp [isPyWs])]
        rw [ih (fun x hx => h x (List.mem_cons_of_mem _ hx))]

/-- Helper: whitespace collapsing is idempotent. -/
theorem collapseList_idem (l : List Char) :
    collapseList (collapseList l) = collapseList l := by
  unfold collapseList
  rw [splitWs_joinSp (splitWs l) (splitWs_words l.length l (by omega))]

/-- Helper: filtering commutes with whitespace collapsing for a predicate
that rejects all whitespace. -/
theorem collapseList_filter (p : Char → Bool) (hp : ∀ c, isPyWs c = true → p c = false) :
    ∀ (f : Nat) (l : List Char), l.length ≤ f →
      (collapseList l).filter p = l.filter p := by
  intro f
  induction f with
  | zero =>
    intro l h1
    have : l = [] := List.eq_nil_of_length_eq_zero (Nat.le_zero.mp h1)
    subst this
    rfl
  | succ f ih =>
    intro l h1
    cases l with
    | nil => rfl
    | cons c rest =>
      simp only [List.length_cons] at h1
      rcases hb : isPyWs c with _ | _
      · have hdr := (List.dropWhile_suffix (l := rest) (fun x => !isPyWs x)).length_le
        have hrest : rest = rest.takeWhile (fun x => !isPyWs x) ++
            rest.dropWhile (fun x => !isPyWs x) :=
          (List.takeWhile_append_dropWhile _ _).symm
        rcases hd : splitWs (rest.dropWhile (fun x => !isPyWs x)) with _ | ⟨w2, ws2⟩
        · have hfd : (rest.dropWhile (fun x => !isPyWs x)).filter p = [] := by
            rw [List.filter_eq_nil_iff]
            intro a ha
            have := splitWs_eq_nil (rest.dropWhile (fun x => !isPyWs x)).length _
              (by omega) hd a ha
            simp [hp a this]
          show (joinSp (splitWs (c :: rest))).filter p = _
          rw [splitWs_cons_word c rest hb, hd]
          show (c :: rest.takeWhile (fun x => !isPyWs x)).filter p = _
          conv_rhs => rw [hrest]
          rw [List.filter_cons, List.filter_cons, List.filter_append, hfd,
            List.append_nil]
        · show (joinSp (splitWs (c :: rest))).filter p = _
          rw [splitWs_cons_word c rest hb, hd]
          show ((c :: rest.takeWhile (fun x => !isPyWs x)) ++
            ' ' :: joinSp (w2 :: ws2)).filter p = _
          have hjoin : joinSp (w2 :: ws2) =
              collapseList (rest.dropWhile (fun x => !isPyWs x)) := by
            unfold collapseList
            rw [hd]
          have hsp : (' ' :: collapseList (rest.dropWhile (fun x => !isPyWs x))).filter p =
              (collapseList (rest.dropWhile (fun x => !isPyWs x))).filter p := by
            rw [List.filter_cons, show p ' ' = false from hp ' ' (by decide)]
            simp
          rw [hjoin, List.filter_append, hsp, ih _ (by omega)]
          conv_rhs => rw [hrest]
          rw [List.filter_cons, List.filter_cons, List.filter_append]
          split <;> simp
      · show (joinSp (splitWs (c :: rest))).filter p = _
        rw [splitWs_cons_ws c rest hb]
        rw [List.filter_cons, show p c = false from hp c hb]
        simp only [Bool.false_eq_true, if_false]
        exact ih rest (by omega)

/-- Helper: containment of the closing bracket survives the angle filter. -/
theorem contains_gt_filter : ∀ l : List Char,
    (l.filter isAngle).contains '>' = l.contains '>' := by
  intro l
  induction l with
  | nil => rfl
  | cons c rest ih =>
    rcases hb : isAngle c with _ | _
    · rw [List.filter_cons, hb]
      simp only [Bool.false_eq_true, if_false]
      rw [ih, List.contains_cons]
      have : ('>' == c) = false := by
        simp only [isAngle, Bool.or_eq_false_iff] at hb
        simp only [beq_eq_false_iff_ne, ne_eq]
        intro hc
        rw [← hc] at hb
        simp at hb
      rw [this]
      simp
    · rw [List.filter_cons, hb, if_pos rfl, List.contains_cons, List.contains_cons, ih]

/-- Helper: the no-complete-tag property only depends on the angle-bracket
characters. -/
theorem noTag_filter : ∀ l : List Char, noTag (l.filter isAngle) = noTag l := by
  intro l
  induction l with
  | nil => rfl
  | cons c rest ih =>
    by_cases hc : c = '<'
    · subst hc
      rw [List.filter_cons, show isAngle '<' = true from rfl, if_pos rfl]
      show (if '<' = '<' then !(rest.filter isAngle).contains '>' else _) = _
      rw [if_pos rfl, contains_gt_filter]
      rfl
    · rcases hb : isAngle c with _ | _
      · rw [List.filter_cons, hb]
        simp only [Bool.false_eq_true, if_false]
        rw [ih]
        show _ = (if c = '<' then !rest.contains '>' else noTag rest)
        rw [if_neg hc]
      · rw [List.filter_cons, hb, if_pos rfl]
        show (if c = '<' then !(rest.filter isAngle).contains '>' else noTag (rest.filter isAngle)) = _
        rw [if_neg hc, ih]
        show _ = (if c = '<' then !rest.contains '>' else noTag rest)
        rw [if_neg hc]

/-- Helper: whitespace characters are not angle brackets. -/
theorem isAngle_of_ws : ∀ c : Char, isPyWs c = true → isAngle c = false := by
  intro c h
  simp only [isPyWs, Bool.or_eq_true, decide_eq_true_eq] at h
  rcases h with ((((h | h) | h) | h) | h) | h <;> subst h <;> rfl

/-- Helper: whitespace collapsing preserves the no-complete-tag property. -/
theorem noTag_collapseList (l : List Char) :
    noTag (collapseList l) = noTag l := by
  rw [← noTag_filter (collapseList l),
    collapseList_filter isAngle isAngle_of_ws l.length l (by omega), noTag_filter]

/-- Helper: characters surviving the tag stripper come from the input. -/
theorem mem_stripTagsF : ∀ (f : Nat) (l : List Char) (x : Char),
    x ∈ stripTagsF f l → x ∈ l := by
  intro f
  induction f with
  | zero => intro l x h; exact absurd h (List.not_mem_nil x)
  | succ f ih =>
    intro l x h
    cases l with
    | nil => exact absurd h (List.not_mem_nil x)
    | cons c rest =>
      rcases hb : c = '<' && rest.contains '>' with _ | _
      · simp only [stripTagsF, hb, Bool.false_eq_true, if_false] at h
        rcases List.mem_cons.mp h with h | h
        · rw [h]; exact List.mem_cons_self c rest
        · exact List.mem_cons_of_mem c (ih rest x h)
      · simp only [stripTagsF, hb, if_true] at h
        have h2 := ih _ x h
        have h3 : x ∈ rest.dropWhile (fun x => x ≠ '>') :=
          List.mem_of_mem_drop h2
        have h4 : x ∈ rest :=
          (List.dropWhile_suffix (fun x => x ≠ '>')).sublist.subset h3
        exact List.mem_cons_of_mem c h4

/-- Helper: text without a closing bracket has no complete tag. -/
theorem noTag_contains_false : ∀ l : List Char,
    l.contains '>' = false → noTag l = true := by
  intro l
  induction l with
  | nil => intro _; rfl
  | cons c rest ih =>
    intro h
    rw [List.contains_cons, Bool.or_eq_false_iff] at h
    show (if c = '<' then !rest.contains '>' else noTag rest) = true
    by_cases hc : c = '<'
    · rw [if_pos hc, h.2]
      rfl
    · rw [if_neg hc]
      exact ih h.2

/-- Helper: the output of the tag stripper has no complete tag. -/
theorem noTag_stripTagsF : ∀ (f : Nat) (l : List Char),
    noTag (stripTagsF f l) = true := by
  intro f
  induction f with
  | zero => intro l; rfl
  | succ f ih =>
    intro l
    cases l with
    | nil => rfl
    | cons c rest =>
      rcases hb : c = '<' && rest.contains '>' with _ | _
      · simp only [stripTagsF, hb, Bool.false_eq_true, if_false]
        by_cases hc : c = '<'
        · subst hc
          have hng : rest.contains '>' = false := by
            rcases hb2 : rest.contains '>' with _ | _
            · rfl
            · rw [hb2] at hb
              simp at hb
          have hng2 : (stripTagsF f rest).contains '>' = false := by
            rcases hb3 : (stripTagsF f rest).contains '>' with _ | _
            · rfl
            · exfalso
              have hm : '>' ∈ stripTagsF f rest := List.elem_iff.mp hb3
              have hm2 : '>' ∈ rest := mem_stripTagsF f rest '>' hm
              have h5 : rest.contains '>' = true := List.elem_iff.mpr hm2
              rw [h5] at hng
              exact Bool.noConfusion hng
          show (if '<' = '<' then !(stripTagsF f rest).contains '>' else _) = true
          rw [if_pos rfl, hng2]
          rfl
        · show (if c = '<' then !(stripTagsF f rest).contains '>' else noTag (stripTagsF f rest)) = true
          rw [if_neg hc]
          exact ih rest
      · simp only [stripTagsF, hb, if_true]
        exact ih _

/-- Helper: the tag stripper leaves tag-free text unchanged. -/
theorem stripTagsF_of_noTag : ∀ (f : Nat) (l : List Char), l.length ≤ f →
    noTag l = true → stripTagsF f l = l := by
  intro f
  induction f with
  | zero =>
    intro l h1 _
    have : l = [] := List.eq_nil_of_length_eq_zero (Nat.le_zero.mp h1)
    subst this
    rfl
  | succ f ih =>
    intro l h1 hn
    cases l with
    | nil => rfl
    | cons c rest =>
      simp only [List.length_cons] at h1
      by_cases hc : c = '<'
      · subst hc
        have hng : rest.contains '>' = false := by
          rcases hb2 : rest.contains '>' with _ | _
          · rfl
          · exfalso
            rw [show noTag ('<' :: rest) =
              (if '<' = '<' then !rest.contains '>' else noTag rest) from rfl,
              if_pos rfl, hb2] at hn
            exact Bool.noConfusion hn
        simp only [stripTagsF, hng, Bool.and_false, Bool.false_eq_true, if_false]
        rw [ih rest (by omega) (noTag_contains_false rest hng)]
      · simp only [stripTagsF, decide_eq_false hc, Bool.false_and,
          Bool.false_eq_true, if_false]
        have hn2 : noTag rest = true := by
          rw [show noTag (c :: rest) =
            (if c = '<' then !rest.contains '>' else noTag rest) from rfl,
            if_neg hc] at hn
          exact hn
        rw [ih rest (by omega) hn2]

/-- Helper: the output of stripTags has no complete tag. -/
theorem noTag_stripTags (l : List Char) : noTag (stripTags l) = true :=
  noTag_stripTagsF l.length l

/-- Helper: stripTags leaves tag-free text unchanged. -/
theorem stripTags_of_noTag (l : List Char) (h : noTag l = true) : stripTags l = l :=
  stripTagsF_of_noTag l.length l (by omega) h

/-- Helper: the sanitizing text transformation is idempotent. -/
theorem sanitizeText_idem (s : String) : sanitizeText (sanitizeText s) = sanitizeText s := by
  unfold sanitizeText
  show String.mk (collapseList (stripTags (collapseList (stripTags s.data)))) = _
  have h1 : noTag (collapseList (stripTags s.data)) = true := by
    rw [noTag_collapseList]
    exact noTag_stripTags s.data
  rw [stripTags_of_noTag _ h1, collapseList_idem]

/-- Helper: tag stripping does not lengthen the text. -/
theorem length_stripTagsF_le : ∀ (f : Nat) (l : List Char),
    (stripTagsF f l).length ≤ l.length := by
  intro f
  induction f with
  | zero => intro l; simp [stripTagsF]
  | succ f ih =>
    intro l
    cases l with
    | nil => simp [stripTagsF]
    | cons c rest =>
      rcases hb : c = '<' && rest.contains '>' with _ | _
      · simp only [stripTagsF, hb, Bool.false_eq_true, if_false]
        simp only [List.length_cons]
        have := ih rest
        omega
      · simp only [stripTagsF, hb, if_true]
        have h1 := ih ((rest.dropWhile (fun x => x ≠ '>')).drop 1)
        have h2 := dropGt_len rest
        simp only [List.length_cons]
        omega

/-- Helper: the head left standing by dropWhile fails the predicate. -/
theorem dropWhile_head_false {α : Type} (p : α → Bool) :
    ∀ (l : List α) (c : α) (r : List α), l.dropWhile p = c :: r → p c = false := by
  intro l
  induction l with
  | nil => intro c r h; exact absurd h (by simp)
  | cons d rest ih =>
    intro c r h
    rcases hp : p d with _ | _
    · rw [List.dropWhile_cons, hp] at h
      simp only [Bool.false_eq_true, if_false] at h
      have := List.cons.inj h
      rw [← this.1]
      exact hp
    · rw [List.dropWhile_cons, hp] at h
      simp only [if_true] at h
      exact ih c r h

/-- Helper: whitespace collapsing does not lengthen the text. -/
theorem length_collapseList_le : ∀ (f : Nat) (l : List Char), l.length ≤ f →
    (collapseList l).length ≤ l.length := by
  intro f
  induction f with
  | zero =>
    intro l h1
    have : l = [] := List.eq_nil_of_length_eq_zero (Nat.le_zero.mp h1)
    subst this
    simp [collapseList, splitWs, joinSp]
  | succ f ih =>
    intro l h1
    cases l with
    | nil => simp [collapseList, splitWs, joinSp]
    | cons c rest =>
      simp only [List.length_cons] at h1
      rcases hb : isPyWs c with _ | _
      · have ht := (List.takeWhile_prefix (l := rest) (fun x => !isPyWs x)).length_le
        have hrest : rest.length = (rest.takeWhile (fun x => !isPyWs x)).length +
            (rest.dropWhile (fun x => !isPyWs x)).length := by
          conv_lhs => rw [← List.takeWhile_append_dropWhile
            (p := fun x => !isPyWs x) (l := rest)]
          rw [List.length_append]
        rcases hd : splitWs (rest.dropWhile (fun x => !isPyWs x)) with _ | ⟨w2, ws2⟩
        · show (joinSp (splitWs (c :: rest))).length ≤ _
          rw [splitWs_cons_word c rest hb, hd]
          show (c :: rest.takeWhile (fun x => !isPyWs x)).length ≤ _
          simp only [List.length_cons]
          omega
        · show (joinSp (splitWs (c :: rest))).length ≤ _
          rw [splitWs_cons_word c rest hb, hd]
          show ((c :: rest.takeWhile (fun x => !isPyWs x)) ++
            ' ' :: joinSp (w2 :: ws2)).length ≤ _
          have hjoin : joinSp (w2 :: ws2) =
              collapseList (rest.dropWhile (fun x => !isPyWs x)) := by
            unfold collapseList
            rw [hd]
          rcases hdr : rest.dropWhile (fun x => !isPyWs x) with _ | ⟨d1, dr'⟩
          · rw [hdr] at hd
            simp [splitWs, splitWsF] at hd
          · have hd1 : isPyWs d1 = true := by
              have := dropWhile_head_false _ rest d1 dr' hdr
              simpa using this
            have hcoll : collapseList (rest.dropWhile (fun x => !isPyWs x)) =
                collapseList dr' := by
              rw [hdr]
              unfold collapseList
              rw [splitWs_cons_ws d1 dr' hd1]
            have hlen2 : (rest.dropWhile (fun x => !isPyWs x)).length ≤ rest.length :=
              (List.dropWhile_suffix (l := rest) (fun x => !isPyWs x)).length_le
            have hdr'len : dr'.length + 1 = (rest.dropWhile (fun x => !isPyWs x)).length := by
              rw [hdr]
              rfl
            have hih := ih dr' (by omega)
            rw [hjoin, hcoll]
            simp only [List.length_append, List.length_cons]
            omega
      · show (joinSp (splitWs (c :: rest))).length ≤ _
        rw [splitWs_cons_ws c rest hb]
        show (collapseList rest).length ≤ (c :: rest).length
        have := ih rest (by omega)
        simp only [List.length_cons]
        omega

/-- Helper: a valid scalar value round-trips through Char.ofNat. -/
theorem toNat_ofNat_valid (n : Nat) (h : n.isValidChar) : (Char.ofNat n).toNat = n := by
  unfold Char.ofNat
  rw [dif_pos h]
  rfl

/-- Helper: lower-casing an upper-case letter adds 32 to its code. -/
theorem lowChar_toNat (c : Char) (h : 65 ≤ c.toNat ∧ c.toNat ≤ 90) :
    (lowChar c).toNat = c.toNat + 32 := by
  unfold lowChar
  rw [if_pos h]
  exact toNat_ofNat_valid _ (Or.inl (by omega))

/-- Helper: ASCII lower-casing of one character is idempotent. -/
theorem lowChar_idem (c : Char) : lowChar (lowChar c) = lowChar c := by
  by_cases h : 65 ≤ c.toNat ∧ c.toNat ≤ 90
  · have ht := lowChar_toNat c h
    have h2 : ¬(65 ≤ (lowChar c).toNat ∧ (lowChar c).toNat ≤ 90) := by
      rw [ht]
      omega
    show (if 65 ≤ (lowChar c).toNat ∧ (lowChar c).toNat ≤ 90 then
      Char.ofNat ((lowChar c).toNat + 32) else lowChar c) = lowChar c
    rw [if_neg h2]
  · have hc : lowChar c = c := by
      unfold lowChar
      rw [if_neg h]
    rw [hc, hc]

/-- Helper: character inequality follows from different codes. -/
theorem char_ne_of_toNat_ne (a b : Char) (h : a.toNat ≠ b.toNat) : a ≠ b :=
  fun hc => h (congrArg Char.toNat hc)

/-- Helper: a character whose code is none of the whitespace codes is not
whitespace. -/
theorem isPyWs_eq_false_of_toNat (x : Char)
    (h : x.toNat ≠ 32 ∧ x.toNat ≠ 9 ∧ x.toNat ≠ 10 ∧ x.toNat ≠ 13 ∧
      x.toNat ≠ 11 ∧ x.toNat ≠ 12) : isPyWs x = false := by
  unfold isPyWs
  rw [decide_eq_false (char_ne_of_toNat_ne x ' ' h.1),
    decide_eq_false (char_ne_of_toNat_ne x '\t' h.2.1),
    decide_eq_false (char_ne_of_toNat_ne x '\n' h.2.2.1),
    decide_eq_false (char_ne_of_toNat_ne x '\r' h.2.2.2.1),
    decide_eq_false (char_ne_of_toNat_ne x '\x0b' h.2.2.2.2.1),
    decide_eq_false (char_ne_of_toNat_ne x '\x0c' h.2.2.2.2.2)]
  rfl

/-- Helper: lower-casing does not change whether a character is whitespace. -/
theorem isPyWs_lowChar (c : Char) : isPyWs (lowChar c) = isPyWs c := by
  by_cases h : 65 ≤ c.toNat ∧ c.toNat ≤ 90
  · have ht := lowChar_toNat c h
    rw [isPyWs_eq_false_of_toNat (lowChar c) (by omega),
      isPyWs_eq_false_of_toNat c (by omega)]
  · have hc : lowChar c = c := by
      unfold lowChar
      rw [if_neg h]
    rw [hc]

/-- Helper: dropWhile commutes with map, transporting the predicate. -/
theorem dropWhile_map_comm {α β : Type} (f : α → β) (p : β → Bool) :
    ∀ l : List α, (l.map f).dropWhile p = (l.dropWhile (fun x => p (f x))).map f := by
  intro l
  induction l with
  | nil => rfl
  | cons c rest ih =>
    rw [List.map_cons, List.dropWhile_cons, List.dropWhile_cons]
    rcases hp : p (f c) with _ | _
    · simp only [Bool.false_eq_true, if_false, List.map_cons]
    · simp only [if_true]
      exact ih

/-- Helper: stripping commutes with lower-casing. -/
theorem stripList_map_low (l : List Char) :
    stripList (l.map lowChar) = (stripList l).map lowChar := by
  unfold stripList
  have hcong : (fun x => isPyWs (lowChar x)) = isPyWs := funext isPyWs_lowChar
  rw [dropWhile_map_comm, hcong, ← List.map_reverse, dropWhile_map_comm, hcong,
    ← List.map_reverse]

/-- Helper: a non-empty list keeps its head under an append on the right. -/
theorem head_append_left {α : Type} (l1 l2 : List α) (h : l1 ≠ []) :
    (l1 ++ l2).head? = l1.head? := by
  cases l1 with
  | nil => exact absurd rfl h
  | cons c rest => rfl

/-- Helper: a non-empty suffix keeps the last element of the whole. -/
theorem getLast_append_right {α : Type} (u s : List α) (h : s ≠ []) :
    (u ++ s).getLast? = s.getLast? := by
  rw [← List.head?_reverse, ← List.head?_reverse, List.reverse_append]
  exact head_append_left _ _ (by simpa using h)

/-- Helper: the head surviving dropWhile fails the predicate, head-option
form. -/
theorem dropWhile_headq_false {α : Type} (p : α → Bool) :
    ∀ (l : List α) (c : α), (l.dropWhile p).head? = some c → p c = false := by
  intro l c h
  rcases hd : l.dropWhile p with _ | ⟨d, r⟩
  · rw [hd] at h
    exact absurd h (by simp)
  · rw [hd] at h
    have hdc : d = c := by simpa using h
    rw [← hdc]
    exact dropWhile_head_false p l d r hd

/-- Helper: a list whose head fails the predicate is fixed by dropWhile. -/
theorem dropWhile_eq_self_of_headq {α : Type} (p : α → Bool) (l : List α)
    (h : ∀ c, l.head? = some c → p c = false) : l.dropWhile p = l := by
  cases l with
  | nil => rfl
  | cons c rest =>
    rw [List.dropWhile_cons, h c rfl]
    simp

/-- Helper: stripping is idempotent. -/
theorem stripList_idem (l : List Char) : stripList (stripList l) = stripList l := by
  have hr : (stripList l).dropWhile isPyWs = stripList l := by
    apply dropWhile_eq_self_of_headq
    intro c hc
    have hb : ((l.dropWhile isPyWs).reverse.dropWhile isPyWs) ≠ [] := by
      intro hnil
      unfold stripList at hc
      rw [hnil] at hc
      exact Option.noConfusion hc
    have h1 : (stripList l).head? =
        ((l.dropWhile isPyWs).reverse.dropWhile isPyWs).getLast? := by
      unfold stripList
      rw [List.head?_reverse]
    obtain ⟨u, hu⟩ := List.dropWhile_suffix
      (l := (l.dropWhile isPyWs).reverse) isPyWs
    have h2 : ((l.dropWhile isPyWs).reverse.dropWhile isPyWs).getLast? =
        (l.dropWhile isPyWs).reverse.getLast? := by
      conv_rhs => rw [← hu]
      rw [getLast_append_right u _ hb]
    rw [h1, h2, List.getLast?_reverse] at hc
    exact dropWhile_headq_false isPyWs l c hc
  show ((((stripList l).dropWhile isPyWs).reverse).dropWhile isPyWs).reverse = _
  rw [hr]
  show (((((l.dropWhile isPyWs).reverse.dropWhile isPyWs).reverse).reverse).dropWhile isPyWs).reverse = _
  rw [List.reverse_reverse]
  have hb2 : ((l.dropWhile isPyWs).reverse.dropWhile isPyWs).dropWhile isPyWs =
      (l.dropWhile isPyWs).reverse.dropWhile isPyWs := by
    apply dropWhile_eq_self_of_headq
    intro c hc
    exact dropWhile_headq_false isPyWs _ c hc
  rw [hb2]
  rfl

/-- Helper: email normalisation is idempotent. -/
theorem normEmail_idem (e : String) : normEmail (normEmail e) = normEmail e := by
  show String.mk ((stripList ((stripList e.data).map lowChar)).map lowChar) =
    String.mk ((stripList e.data).map lowChar)
  rw [stripList_map_low, stripList_idem, List.map_map]
  rw [show (lowChar ∘ lowChar) = lowChar from funext lowChar_idem]

/-- C6 (amended): for every accepted text and valid email,
validate_and_sanitize returns the tag-stripped, whitespace-collapsed text
paired with the lower-cased trimmed email; and re-applying it to its own
output returns the same output provided the output text is itself accepted
(non-empty after trimming and free of injection patterns — conditions the
counterexample shows can fail, since tag stripping can empty the text or
expose an injection pattern).  The email side re-validates unconditionally. -/
theorem sanitize_output_amended :
    ∀ (t e : String),
      ¬(t.length > 500) → (pyStrip t).length ≠ 0 → hasInjection t = false →
      isEmailFormat (normEmail e) = true → ¬((normEmail e).length > 254) →
      validate_and_sanitize t e = .ok (sanitizeText t, normEmail e) ∧
      ((pyStrip (sanitizeText t)).length ≠ 0 → hasInjection (sanitizeText t) = false →
        validate_and_sanitize (sanitizeText t) (normEmail e) =
          .ok (sanitizeText t, normEmail e)) := by
  intro t e h1 h2 h3 h4 h5
  have he : validate_email e = .ok (normEmail e) := by
    unfold validate_email
    simp only
    rw [if_neg (by simp [h4]), if_neg h5]
  constructor
  · have hs : sanitize_user_input t = .ok (sanitizeText t) := by
      unfold sanitize_user_input
      rw [if_neg h1, if_neg h2, if_neg (by simp [h3])]
    unfold validate_and_sanitize
    rw [hs, he]
  · intro h6 h7
    have hlen : (sanitizeText t).length ≤ t.length := by
      show (collapseList (stripTags t.data)).length ≤ t.data.length
      calc (collapseList (stripTags t.data)).length
          ≤ (stripTags t.data).length :=
            length_collapseList_le (stripTags t.data).length _ (by omega)
        _ ≤ t.data.length := length_stripTagsF_le _ _
    have hs2 : sanitize_user_input (sanitizeText t) =
        .ok (sanitizeText (sanitizeText t)) := by
      unfold sanitize_user_input
      rw [if_neg (by omega), if_neg h6, if_neg (by simp [h7])]
    have he2 : validate_email (normEmail e) = .ok (normEmail e) := by
      unfold validate_email
      simp only
      rw [normEmail_idem]
      rw [if_neg (by simp [h4]), if_neg h5]
    unfold validate_and_sanitize
    rw [hs2, sanitizeText_idem, he2]

/-- Witness for C6 (amended): a concrete accepted input whose sanitized
form is returned and re-accepted identically. -/
theorem sanitize_output_amended_witness :
    validate_and_sanitize "  Plan <b>a sync</b>  meeting " " A@B.Com " =
      .ok (sanitizeText "  Plan <b>a sync</b>  meeting ", normEmail " A@B.Com ") ∧
    validate_and_sanitize (sanitizeText "  Plan <b>a sync</b>  meeting ")
        (normEmail " A@B.Com ") =
      .ok (sanitizeText "  Plan <b>a sync</b>  meeting ", normEmail " A@B.Com ") := by
  obtain ⟨ha, hb⟩ := sanitize_output_amended "  Plan <b>a sync</b>  meeting " " A@B.Com "
    (by decide) (by decide) (by decide) (by decide) (by decide)
  exact ⟨ha, hb (by decide) (by decide)⟩
